import Mathlib

/-!
Verification of core behaviours of the pinterest-dl repository against a
shallow embedding of its Python sources.  Python strings are modeled as
lists of characters, Python `bytes` as lists of naturals below 256,
Python exceptions as `Except`, and the mutating loops as explicit state
passing.  Each embedded definition mirrors one Python function and keeps
its name where Lean allows it.
-/

set_option maxHeartbeats 1000000
set_option maxRecDepth 20000

/-- Python strings are modeled as lists of characters. -/
abbrev PyStr : Type := List Char

/-- Decimal rendering of a natural number, as a Python string. -/
def natStr (n : Nat) : PyStr := (Nat.repr n).toList

/-- Decimal rendering of an integer, as a Python string. -/
def intStr (i : Int) : PyStr := (Int.repr i).toList

/-- Python slicing `l[start:]` (`start` may be negative, as in Python). -/
def pySliceFrom (start : Int) (l : List α) : List α :=
  let s : Int := if start < 0 then max 0 ((l.length : Int) + start) else start
  l.drop s.toNat

/-- Python slicing `l[:stop]` (`stop` may be negative, as in Python). -/
def pySliceTo (stop : Int) (l : List α) : List α :=
  let s : Int := if stop < 0 then max 0 ((l.length : Int) + stop) else stop
  l.take s.toNat

/-- Python `sep.join(parts)`. -/
def pyJoin (sep : PyStr) : List PyStr → PyStr
  | [] => []
  | [x] => x
  | x :: y :: rest => x ++ sep ++ pyJoin sep (y :: rest)

/-- ASCII whitespace recognized by Python `str.strip()`. -/
def pyIsSpace (c : Char) : Bool :=
  c == ' ' || c == '\t' || c == '\n' || c == '\x0d' || c == '\x0b' || c == '\x0c'

/-- Python `str.strip()` (whitespace on both ends). -/
def pyStrip (s : PyStr) : PyStr :=
  ((s.dropWhile pyIsSpace).reverse.dropWhile pyIsSpace).reverse

/-- Helper for `pySplitlines`: accumulates characters of the current line. -/
def pySplitlinesGo : PyStr → PyStr → List PyStr
  | [], cur => [cur.reverse]
  | '\n' :: rest, cur =>
    cur.reverse :: (match rest with
      | [] => []
      | c :: cs => pySplitlinesGo (c :: cs) [])
  | c :: rest, cur => pySplitlinesGo rest (c :: cur)

/-- Python `str.splitlines()`, restricted to the `\n` line terminator
(the only terminator produced by the subprocesses modeled here). -/
def pySplitlines (s : PyStr) : List PyStr :=
  match s with
  | [] => []
  | c :: cs => pySplitlinesGo (c :: cs) []

namespace PinterestDL

/-! ## BookmarkManager (`low_level/ops/bookmark_manager.py`) -/

/-- State of `BookmarkManager`: the token list and the configured cap. -/
structure BookmarkManager where
  bookmarks : List PyStr
  last : Nat
deriving DecidableEq

/-- Constructor of `BookmarkManager`; rejects `last` outside `[0, 4]`. -/
def BookmarkManager.init (last : Int) : Except PyStr BookmarkManager :=
  if last < 0 || last > 4 then
    .error "Invalid last value. Must be between 0 and 4".toList
  else
    .ok { bookmarks := [], last := last.toNat }

/-- Method `add`: appends one bookmark. -/
def BookmarkManager.add (m : BookmarkManager) (bookmark : PyStr) : BookmarkManager :=
  { m with bookmarks := m.bookmarks ++ [bookmark] }

/-- Method `add_all`: appends a list of bookmarks. -/
def BookmarkManager.add_all (m : BookmarkManager) (bs : List PyStr) : BookmarkManager :=
  { m with bookmarks := m.bookmarks ++ bs }

/-- Method `clear`: empties the token list. -/
def BookmarkManager.clear (m : BookmarkManager) : BookmarkManager :=
  { m with bookmarks := [] }

/-- Method `get`: `bookmarks` if shorter than `last`, else `bookmarks[-last:]`. -/
def BookmarkManager.get (m : BookmarkManager) : List PyStr :=
  if m.bookmarks.length < m.last then m.bookmarks
  else pySliceFrom (-(m.last : Int)) m.bookmarks

/-- Method `get_all`: the whole token list. -/
def BookmarkManager.get_all (m : BookmarkManager) : List PyStr :=
  m.bookmarks

/-- One mutating operation on a `BookmarkManager`. -/
inductive BmOp where
  | addOne (b : PyStr)
  | addAll (bs : List PyStr)
deriving DecidableEq

/-- The tokens carried by one operation. -/
def BmOp.tokens : BmOp → List PyStr
  | .addOne b => [b]
  | .addAll bs => bs

/-- Apply one operation to a manager. -/
def BookmarkManager.applyOp (m : BookmarkManager) : BmOp → BookmarkManager
  | .addOne b => m.add b
  | .addAll bs => m.add_all bs

/-- Apply a sequence of operations to a manager. -/
def BookmarkManager.runOps (m : BookmarkManager) (ops : List BmOp) : BookmarkManager :=
  ops.foldl BookmarkManager.applyOp m

/-! ## Batch retrieval loop (`scrapers/api_scraper.py`, pin variant) -/

/-- The slice of `PinterestMedia` relevant to the retrieval loop: the
dedup key `src` and the alt text used by `_cull_no_alt`. -/
structure PinterestMedia where
  src : PyStr
  alt : Option PyStr
deriving DecidableEq

/-- One API response as seen by the loop: `parsed` is the output of
`ResponseParser.from_responses` on the payload (`none` when the payload
carried no data, in which case the parser raises `EmptyResponseError`),
and `bookmarks` are the pagination tokens of the response. -/
structure ApiResponse where
  parsed : Option (List PinterestMedia)
  bookmarks : List PyStr
deriving DecidableEq

/-- The terminal end-of-content pagination token. -/
def endMark : PyStr := "-end-".toList

/-- Helper of `_unique_images`: the loop over `images` with the `seen` set. -/
def uniqueAux : List PyStr → List PinterestMedia → List PinterestMedia
  | _, [] => []
  | seen, img :: rest =>
    if img.src ∈ seen then uniqueAux seen rest
    else img :: uniqueAux (img.src :: seen) rest

/-- Method `_unique_images`: insertion-ordered dedup keyed by `src`. -/
def unique_images (images : List PinterestMedia) : List PinterestMedia :=
  uniqueAux [] images

/-- Filter of `_cull_no_alt`: keep `img` when `img.alt and img.alt.strip() != ""`. -/
def hasAlt (img : PinterestMedia) : Bool :=
  match img.alt with
  | none => false
  | some a => !a.isEmpty && !(pyStrip a).isEmpty

/-- Method `_cull_no_alt`. -/
def cull_no_alt (images : List PinterestMedia) : List PinterestMedia :=
  images.filter hasAlt

/-- Method `_get_images` on one response: an empty payload makes the
parser raise `EmptyResponseError`, which is caught and yields an empty
batch without touching the bookmarks; otherwise the parsed batch is
optionally culled and the response's bookmarks are appended. -/
def getImagesStep (ensureAlt : Bool) (r : ApiResponse) (bm : BookmarkManager) :
    List PinterestMedia × BookmarkManager :=
  match r.parsed with
  | none => ([], bm)
  | some batch0 =>
    let batch := if ensureAlt then cull_no_alt batch0 else batch0
    (batch, bm.add_all r.bookmarks)

/-- The merge step of the main loop: extend, dedup, and decrement
`remains` by the resulting change in list length. -/
def mergeStep (images batch : List PinterestMedia) (remains : Int) :
    List PinterestMedia × Int :=
  let merged := unique_images (images ++ batch)
  (merged, remains - ((merged.length : Int) - (images.length : Int)))

/-- The `while difference > 0 and remains > 0` loop of
`_handle_missing_images`: each iteration consumes one response; an
exhausted stream models the API raising, which the loop catches and
breaks on.  Returns the updated `remains`, bookmarks, images and the
unconsumed responses.  Note that the additional images are appended
without dedup and `remains` drops by the full batch length. -/
def gapLoop (batchSize : Int) (stream : List ApiResponse) (difference remains : Int)
    (bm : BookmarkManager) (images : List PinterestMedia) :
    Int × BookmarkManager × List PinterestMedia × List ApiResponse :=
  if difference > 0 ∧ remains > 0 then
    if endMark ∈ bm.get then (remains, bm, images, stream)
    else
      match stream with
      | [] => (remains, bm, images, [])
      | r :: rest =>
        match r.parsed with
        | none => (remains, bm, images, rest)
        | some adds =>
          gapLoop batchSize rest (difference - (adds.length : Int))
            (remains - (adds.length : Int)) (bm.add_all r.bookmarks) (images ++ adds)
  else (remains, bm, images, stream)

/-- Final state of the retrieval loop: the accumulated images, the
remaining-to-fetch counter, the bookmark manager, and the responses the
loop never consumed. -/
structure ScrapeState where
  images : List PinterestMedia
  remains : Int
  bm : BookmarkManager
  stream : List ApiResponse
deriving DecidableEq

/-- The `while remains > 0` loop of `_scrape_pins`, with the API's
responses supplied as a stream; an exhausted stream models the API
raising `EmptyResponseError`, which the loop catches and breaks on. -/
def scrapeLoop (ensureAlt : Bool) (stream : List ApiResponse) (images : List PinterestMedia)
    (remains : Int) (bm : BookmarkManager) : ScrapeState :=
  if remains > 0 then
    match stream with
    | [] => ⟨images, remains, bm, []⟩
    | r :: rest =>
      let batchSize : Int := min 50 remains
      let step := getImagesStep ensureAlt r bm
      let merged := mergeStep images step.1 remains
      if endMark ∈ step.2.get then ⟨merged.1, merged.2, step.2, rest⟩
      else
        let d0 : Int := batchSize - min batchSize (merged.1.length : Int)
        let g := gapLoop batchSize rest d0 merged.2 step.2 merged.1
        scrapeLoop ensureAlt g.2.2.2 g.2.2.1 g.1 g.2.1
  else ⟨images, remains, bm, stream⟩
termination_by stream.length
decreasing_by
  have hle : ∀ (bs : Int) (s : List ApiResponse) (d rm : Int) (b : BookmarkManager)
      (im : List PinterestMedia), ((gapLoop bs s d rm b im).2.2.2).length ≤ s.length := by
    intro bs s
    induction s with
    | nil =>
      intro d rm b im
      rw [gapLoop]
      split
      · split
        · simp
        · simp
      · simp
    | cons r rest ih =>
      intro d rm b im
      rw [gapLoop]
      split
      · split
        · simp
        · cases r.parsed with
          | none => simp
          | some adds =>
            simp only []
            exact le_trans (ih _ _ _ _) (Nat.le_succ _)
      · simp
  simp only [List.length_cons]
  exact Nat.lt_succ_of_le (hle _ _ _ _ _ _)

/-- Method `_scrape_pins` as invoked from `scrape()`: fresh
`BookmarkManager(3)`, empty accumulator, `remains = num`. -/
def scrape_pins (ensureAlt : Bool) (num : Int) (stream : List ApiResponse) : ScrapeState :=
  scrapeLoop ensureAlt stream [] num { bookmarks := [], last := 3 }

/-- The pin branch of `scrape()`: run `_scrape_pins` and return `medias[:num]`. -/
def scrape (ensureAlt : Bool) (num : Int) (stream : List ApiResponse) : List PinterestMedia :=
  pySliceTo num (scrape_pins ensureAlt num stream).images

/-- Method `_search_images` on one response: unlike `_get_images` it
does not catch the parser's `EmptyResponseError`, so an empty payload
(`none`) propagates to the caller's loop; on success the batch is
optionally culled and the response's bookmarks are appended. -/
def search_images (ensureAlt : Bool) (r : ApiResponse) (bm : BookmarkManager) :
    Option (List PinterestMedia × BookmarkManager) :=
  match r.parsed with
  | none => none
  | some batch0 =>
    let batch := if ensureAlt then cull_no_alt batch0 else batch0
    some (batch, bm.add_all r.bookmarks)

/-- The `while difference > 0 and remains > 0` loop of
`_handle_missing_search_images`: unlike the pin/board gap loop it has
no end-marker check and no empty-data guard, so an empty payload makes
the parser raise, which aborts the caller's whole loop (last component
`true`).  Components: remains, bookmarks, images, unconsumed
responses, aborted. -/
def searchGapLoop (batchSize : Int) (stream : List ApiResponse) (difference remains : Int)
    (bm : BookmarkManager) (images : List PinterestMedia) :
    Int × BookmarkManager × List PinterestMedia × List ApiResponse × Bool :=
  if difference > 0 ∧ remains > 0 then
    match stream with
    | [] => (remains, bm, images, [], true)
    | r :: rest =>
      match r.parsed with
      | none => (remains, bm, images, rest, true)
      | some adds =>
        searchGapLoop batchSize rest (difference - (adds.length : Int))
          (remains - (adds.length : Int)) (bm.add_all r.bookmarks) (images ++ adds)
  else (remains, bm, images, stream, false)

/-- Final state of the search loop; `aborted` records that a caught
`ValueError`/`EmptyResponseError` interrupted the loop (the logged
"Search scraping interrupted" paths). -/
structure SearchState where
  images : List PinterestMedia
  remains : Int
  bm : BookmarkManager
  stream : List ApiResponse
  aborted : Bool
deriving DecidableEq

/-- The `while remains > 0` loop of `search`: a parse failure or an
exhausted stream breaks the loop; when the gap-filling call raises, the
assignment `remains = _handle_missing_search_images(...)` is skipped —
the merged `remains` survives while the in-place mutations of the
images list and the bookmark manager are kept. -/
def searchLoop (ensureAlt : Bool) (stream : List ApiResponse) (images : List PinterestMedia)
    (remains : Int) (bm : BookmarkManager) : SearchState :=
  if remains > 0 then
    match stream with
    | [] => ⟨images, remains, bm, [], true⟩
    | r :: rest =>
      let batchSize : Int := min 50 remains
      match search_images ensureAlt r bm with
      | none => ⟨images, remains, bm, rest, true⟩
      | some step =>
        let merged := mergeStep images step.1 remains
        if endMark ∈ step.2.get then ⟨merged.1, merged.2, step.2, rest, false⟩
        else
          let d0 : Int := batchSize - min batchSize (merged.1.length : Int)
          let g := searchGapLoop batchSize rest d0 merged.2 step.2 merged.1
          if g.2.2.2.2 then ⟨g.2.2.1, merged.2, g.2.1, g.2.2.2.1, true⟩
          else searchLoop ensureAlt g.2.2.2.1 g.2.2.1 g.1 g.2.1
  else ⟨images, remains, bm, stream, false⟩
termination_by stream.length
decreasing_by
  have hle : ∀ (bs : Int) (s : List ApiResponse) (d rm : Int) (b : BookmarkManager)
      (im : List PinterestMedia),
      ((searchGapLoop bs s d rm b im).2.2.2.1).length ≤ s.length := by
    intro bs s
    induction s with
    | nil =>
      intro d rm b im
      rw [searchGapLoop]
      split
      · simp
      · simp
    | cons r rest ih =>
      intro d rm b im
      rw [searchGapLoop]
      split
      · cases r.parsed with
        | none => simp
        | some adds => exact le_trans (ih _ _ _ _) (Nat.le_succ _)
      · simp
  simp only [List.length_cons]
  exact Nat.lt_succ_of_le (hle _ _ _ _ _ _)

/-- Method `search` on `num` and a response stream: fresh
`BookmarkManager(bookmarksCount)`, then `images[:num]`. -/
def searchState (ensureAlt : Bool) (num : Int) (bookmarksCount : Nat)
    (stream : List ApiResponse) : SearchState :=
  searchLoop ensureAlt stream [] num { bookmarks := [], last := bookmarksCount }

/-- The value `search` returns: `images[:num]`. -/
def searchRun (ensureAlt : Bool) (num : Int) (bookmarksCount : Nat)
    (stream : List ApiResponse) : List PinterestMedia :=
  pySliceTo num (searchState ensureAlt num bookmarksCount stream).images

/-- Final state of the board loop; `consecutiveEmpty` is the
consecutive empty-after-retries counter (`max_consecutive_failures`
is 3). -/
structure BoardState where
  images : List PinterestMedia
  remains : Int
  bm : BookmarkManager
  stream : List ApiResponse
  consecutiveEmpty : Nat
deriving DecidableEq

/-- The `while remains > 0` loop of `_scrape_board`: on an exhausted
stream `_get_images_with_retry` runs out of retries and raises
`EmptyResponseError`, which increments the consecutive-failure counter
and breaks the loop at 3 (otherwise it continues); a successful
response resets the counter and goes through the same `_get_images`
merge and `_handle_missing_images` gap-filling as the pin loop. -/
def boardLoop (ensureAlt : Bool) (stream : List ApiResponse) (images : List PinterestMedia)
    (remains : Int) (bm : BookmarkManager) (consecutiveEmpty : Nat) : BoardState :=
  if remains > 0 then
    match stream with
    | [] =>
      if consecutiveEmpty + 1 ≥ 3 then ⟨images, remains, bm, [], consecutiveEmpty + 1⟩
      else boardLoop ensureAlt [] images remains bm (consecutiveEmpty + 1)
    | r :: rest =>
      let batchSize : Int := min 50 remains
      let step := getImagesStep ensureAlt r bm
      let merged := mergeStep images step.1 remains
      if endMark ∈ step.2.get then ⟨merged.1, merged.2, step.2, rest, 0⟩
      else
        let d0 : Int := batchSize - min batchSize (merged.1.length : Int)
        let g := gapLoop batchSize rest d0 merged.2 step.2 merged.1
        boardLoop ensureAlt g.2.2.2 g.2.2.1 g.1 g.2.1 0
  else ⟨images, remains, bm, stream, consecutiveEmpty⟩
termination_by 4 * stream.length + (3 - consecutiveEmpty)
decreasing_by
  · simp only [List.length_nil]
    omega
  · have hle : ∀ (bs : Int) (s : List ApiResponse) (d rm : Int) (b : BookmarkManager)
        (im : List PinterestMedia), ((gapLoop bs s d rm b im).2.2.2).length ≤ s.length := by
      intro bs s
      induction s with
      | nil =>
        intro d rm b im
        rw [gapLoop]
        split
        · split
          · simp
          · simp
        · simp
      | cons r rest ih =>
        intro d rm b im
        rw [gapLoop]
        split
        · split
          · simp
          · cases r.parsed with
            | none => simp
            | some adds => exact le_trans (ih _ _ _ _) (Nat.le_succ _)
        · simp
    have h1 := hle (min 50 remains) rest
    simp only [List.length_cons]
    have h2 := h1 (min 50 remains -
        min (min 50 remains)
          ((mergeStep images (getImagesStep ensureAlt r bm).1 remains).1.length : Int))
      (mergeStep images (getImagesStep ensureAlt r bm).1 remains).2
      (getImagesStep ensureAlt r bm).2
      (mergeStep images (getImagesStep ensureAlt r bm).1 remains).1
    omega

/-- Method `_scrape_board` as entered from `scrape()`: `num` is clamped
to the board's pin count, the bookmark manager is `BookmarkManager(3)`,
and the failure counter starts at 0. -/
def boardState (ensureAlt : Bool) (pinCount num : Int) (stream : List ApiResponse) :
    BoardState :=
  boardLoop ensureAlt stream [] (min num pinCount) { bookmarks := [], last := 3 } 0

/-- The board branch of `scrape()`: run `_scrape_board` and return
`medias[:num]`. -/
def boardRun (ensureAlt : Bool) (pinCount num : Int) (stream : List ApiResponse) :
    List PinterestMedia :=
  pySliceTo num (boardState ensureAlt pinCount num stream).images

/-! ## Concurrent download coordinator (`download/downloader.py`) -/

/-- A downloadable item, reduced to the identifier string that
`_ConcurrentCoordinator.run` resolves for error reporting (`item.id`,
falling back to `item.url` or a truncated `str(item)`). -/
structure DlItem where
  ident : PyStr
deriving DecidableEq

/-- Outcome of one worker invocation: normal completion with an optional
result, or an exception carrying its message. -/
inductive WorkerOutcome (β : Type) where
  | done : Option β → WorkerOutcome β
  | raised : PyStr → WorkerOutcome β
deriving DecidableEq

/-- Whether a worker outcome is an exception. -/
def WorkerOutcome.isFailure : WorkerOutcome β → Bool
  | .raised _ => true
  | _ => false

/-- Python dict assignment `d[k] = v` on an insertion-ordered
association list: an existing key keeps its position and gets the new
value, a new key is appended. -/
def dictInsert (errors : List (PyStr × PyStr)) (k v : PyStr) : List (PyStr × PyStr) :=
  match errors with
  | [] => [(k, v)]
  | (k', v') :: rest =>
    if k' = k then (k', v) :: rest else (k', v') :: dictInsert rest k v

/-- The `as_completed` loop of `_ConcurrentCoordinator.run`: futures are
handled in completion order (`order`); a success is written into its
input-index slot, an exception is recorded in the `errors` dict keyed by
the string form of the item identifier (or re-raised when `failFast`). -/
def processAll (items : List DlItem) (worker : DlItem → WorkerOutcome β) (failFast : Bool) :
    List (Fin items.length) → List (Option β) → List (PyStr × PyStr) →
    Except PyStr (List (Option β) × List (PyStr × PyStr))
  | [], results, errors => .ok (results, errors)
  | i :: rest, results, errors =>
    match worker (items.get i) with
    | .done v => processAll items worker failFast rest (results.set i v) errors
    | .raised e =>
      if failFast then .error e
      else processAll items worker failFast rest results (dictInsert errors (items.get i).ident e)

/-- The per-failure lines of the aggregate error message. -/
def errorLines (errors : List (PyStr × PyStr)) : List PyStr :=
  errors.map (fun kv => "  - ".toList ++ kv.1 ++ ": ".toList ++ kv.2)

/-- The aggregate `DownloadError` message of `_ConcurrentCoordinator.run`. -/
def aggMessage (errors : List (PyStr × PyStr)) (total : Nat) : PyStr :=
  "Failed to download ".toList ++ natStr errors.length ++ " out of ".toList ++
    natStr total ++ " items:\n".toList ++ pyJoin "\n".toList (errorLines errors)

/-- How `_ConcurrentCoordinator.run` fails: re-raising a worker
exception under `failFast`, or raising one aggregate `DownloadError`. -/
inductive RunError where
  | workerRaise (msg : PyStr)
  | downloadError (msg : PyStr)
deriving DecidableEq

/-- Method `_ConcurrentCoordinator.run` for a given completion order:
process all futures, then either raise the aggregate error or return the
non-`None` results in input order. -/
def runCoordinator (items : List DlItem) (worker : DlItem → WorkerOutcome β)
    (order : List (Fin items.length)) (failFast : Bool) : Except RunError (List β) :=
  match processAll items worker failFast order (List.replicate items.length none) [] with
  | .error e => .error (.workerRaise e)
  | .ok (results, errors) =>
    if errors = [] then .ok (results.filterMap id)
    else .error (.downloadError (aggMessage errors items.length))

/-- The `errors` dict accumulated by a `failFast = false` run. -/
def runErrors (items : List DlItem) (worker : DlItem → WorkerOutcome β)
    (order : List (Fin items.length)) : List (PyStr × PyStr) :=
  match processAll items worker false order (List.replicate items.length none) [] with
  | .error _ => []
  | .ok (_, errors) => errors

/-! ## HLS stream processing (`low_level/hls/hls_processor.py`) -/

/-- Python `bytes` are modeled as lists of naturals below 256. -/
abbrev PyBytes : Type := List Nat

/-- Big-endian encoding `n.to_bytes(k, "big")`; defined for any `n`, but
Python raises `OverflowError` when `n` does not fit in `k` bytes, so the
encoding is the faithful one only for `n < 256 ^ k`. -/
def natToBytesBE : Nat → Nat → PyBytes
  | 0, _ => []
  | k + 1, n => natToBytesBE k (n / 256) ++ [n % 256]

/-- The integer denoted by a big-endian byte string. -/
def bytesToNat (bs : PyBytes) : Nat :=
  bs.foldl (fun acc b => acc * 256 + b) 0

/-- Static method `_compute_default_iv`:
`(media_sequence + segment_index).to_bytes(16, "big")`. -/
def compute_default_iv (mediaSequence segmentIndex : Nat) : PyBytes :=
  natToBytesBE 16 (mediaSequence + segmentIndex)

/-- Value of one hexadecimal digit. -/
def hexDigitVal (c : Char) : Option Nat :=
  if '0' ≤ c ∧ c ≤ '9' then some (c.toNat - '0'.toNat)
  else if 'a' ≤ c ∧ c ≤ 'f' then some (c.toNat - 'a'.toNat + 10)
  else if 'A' ≤ c ∧ c ≤ 'F' then some (c.toNat - 'A'.toNat + 10)
  else none

/-- Python `bytes.fromhex` on a string of plain hex-digit pairs
(`ValueError` on anything else is modeled as `none`). -/
def bytesFromHex : PyStr → Option PyBytes
  | [] => some []
  | [_] => none
  | c1 :: c2 :: rest =>
    match hexDigitVal c1, hexDigitVal c2 with
    | some h, some l => (bytesFromHex rest).map (fun bs => (h * 16 + l) :: bs)
    | _, _ => none

/-- Python `str.lower()`. -/
def pyLower (s : PyStr) : PyStr := s.map Char.toLower

/-- Python `s.replace("0x", "")`: removes every (non-overlapping,
left-to-right) occurrence of `0x`. -/
def pyRemove0x : PyStr → PyStr
  | '0' :: 'x' :: rest => pyRemove0x rest
  | c :: rest => c :: pyRemove0x rest
  | [] => []

/-- Encryption info attached to an `m3u8` segment. -/
structure SegKeyInfo where
  method : PyStr
  uri : Option PyStr
  iv : Option PyStr
deriving DecidableEq

/-- One `m3u8` media segment. -/
structure M3u8Segment where
  uri : PyStr
  key : Option SegKeyInfo
deriving DecidableEq

/-- Stream info of one variant entry of a master playlist. -/
structure M3u8StreamInfo where
  bandwidth : Option Nat
deriving DecidableEq

/-- One variant entry of a master playlist. -/
structure VariantEntry where
  stream_info : Option M3u8StreamInfo
  uri : PyStr
deriving DecidableEq

/-- The parts of a parsed `m3u8` playlist the processor reads. -/
structure M3u8Playlist where
  media_sequence : Option Nat
  segments : List M3u8Segment
  playlists : List VariantEntry
deriving DecidableEq

/-- Dataclass `SegmentInfo` (`low_level/hls/segment_info.py`). -/
structure SegmentInfo where
  index : Nat
  uri : PyStr
  method : Option PyStr
  key_uri : Option PyStr
  iv : Option PyBytes
  media_sequence : Nat
deriving DecidableEq

/-- Body of the `enumerate_segments` loop for the segment at position
`idx`.  The standard library's `urljoin` is abstracted as a parameter. -/
def processSegment (urljoin : PyStr → PyStr → PyStr) (baseUri : PyStr)
    (mediaSequence idx : Nat) (segment : M3u8Segment) : Except PyStr SegmentInfo :=
  let segUrl := urljoin baseUri segment.uri
  match segment.key with
  | none =>
    .ok { index := idx, uri := segUrl, method := none, key_uri := none,
          iv := none, media_sequence := mediaSequence }
  | some keyInfo =>
    if keyInfo.method ≠ "AES-128".toList then
      .error ("Unsupported encryption method: ".toList ++ keyInfo.method)
    else
      match keyInfo.uri with
      | none => .error "Encrypted segment without key URI".toList
      | some kuri =>
        if kuri = [] then .error "Encrypted segment without key URI".toList
        else
          match keyInfo.iv with
          | some ivStr =>
            if ivStr = [] then
              .ok { index := idx, uri := segUrl, method := some "AES-128".toList,
                    key_uri := some (urljoin baseUri kuri),
                    iv := some (compute_default_iv mediaSequence idx),
                    media_sequence := mediaSequence }
            else
              match bytesFromHex (pyRemove0x (pyLower ivStr)) with
              | none => .error "non-hexadecimal number found in fromhex() arg".toList
              | some bs =>
                .ok { index := idx, uri := segUrl, method := some "AES-128".toList,
                      key_uri := some (urljoin baseUri kuri), iv := some bs,
                      media_sequence := mediaSequence }
          | none =>
            .ok { index := idx, uri := segUrl, method := some "AES-128".toList,
                  key_uri := some (urljoin baseUri kuri),
                  iv := some (compute_default_iv mediaSequence idx),
                  media_sequence := mediaSequence }

/-- Method `enumerate_segments`. -/
def enumerate_segments (urljoin : PyStr → PyStr → PyStr) (pl : M3u8Playlist)
    (baseUri : PyStr) : Except PyStr (List SegmentInfo) :=
  if pl.segments.isEmpty then .error "Playlist has no segments".toList
  else
    let ms := pl.media_sequence.getD 0
    pl.segments.enum.mapM (fun p => processSegment urljoin baseUri ms p.1 p.2)

/-- The key of Python `max(..., key=lambda p: p.stream_info.bandwidth or 0)`. -/
def variantKey (p : VariantEntry) : Nat :=
  match p.stream_info with
  | some si => si.bandwidth.getD 0
  | none => 0

/-- The generator filter `p.stream_info and p.stream_info.bandwidth`
(both truthy: info present and bandwidth a nonzero integer). -/
def validVariant (p : VariantEntry) : Bool :=
  match p.stream_info with
  | some si =>
    match si.bandwidth with
    | some b => b ≠ 0
    | none => false
  | none => false

/-- Python `max(xs, key=key)` on a nonempty list: the first element of
maximal key (later elements replace only on a strictly greater key). -/
def pyMaxBy (key : α → Nat) (x : α) (xs : List α) : α :=
  xs.foldl (fun best p => if key p > key best then p else best) x

/-- Errors `resolve_variant` can raise: its own `HlsDownloadError`, or
the `ValueError` of `max()` on an empty generator. -/
inductive ResolveError where
  | hlsDownload (msg : PyStr)
  | valueError (msg : PyStr)
deriving DecidableEq

/-- Method `resolve_variant`. -/
def resolve_variant (urljoin : PyStr → PyStr → PyStr) (pl : M3u8Playlist)
    (baseUri : PyStr) : Except ResolveError PyStr :=
  if pl.playlists.isEmpty then
    .error (.hlsDownload "No variant playlists available to resolve".toList)
  else
    match pl.playlists.filter validVariant with
    | [] => .error (.valueError "max() arg is an empty sequence".toList)
    | p :: ps => .ok (urljoin baseUri (pyMaxBy variantKey p ps).uri)

/-- Result of one `subprocess.run` invocation. -/
structure ProcResult where
  returncode : Int
  stderr : PyStr
deriving DecidableEq

/-- The stderr excerpt `"\n".join(proc.stderr.strip().splitlines()[-60:])`. -/
def stderrTail (stderr : PyStr) : PyStr :=
  pyJoin "\n".toList (pySliceFrom (-60) (pySplitlines (pyStrip stderr)))

/-- Method `_runCmd`, with the subprocess abstracted as a function from
the command line to its result. -/
def runCmd (runner : List PyStr → ProcResult) (cmd : List PyStr) (phase : PyStr) :
    Except PyStr Unit :=
  let proc := runner cmd
  if proc.returncode ≠ 0 then
    .error ("ffmpeg ".toList ++ phase ++ " failed with exit code ".toList ++
      intStr proc.returncode ++ ".\nCommand: ".toList ++
      pyJoin " ".toList (pySliceTo 5 cmd) ++ "...\nError output:\n".toList ++
      stderrTail proc.stderr)
  else .ok ()

/-- The primary remux command line of `concat_and_remux`. -/
def remuxCmd (concatList outputMp4 : PyStr) : List PyStr :=
  ["ffmpeg".toList, "-y".toList, "-loglevel".toList, "info".toList, "-f".toList,
   "concat".toList, "-safe".toList, "0".toList, "-i".toList, concatList,
   "-c".toList, "copy".toList, outputMp4]

/-- The fallback re-encode command line of `concat_and_remux`. -/
def reencodeCmd (concatList outputMp4 : PyStr) : List PyStr :=
  ["ffmpeg".toList, "-y".toList, "-loglevel".toList, "info".toList, "-f".toList,
   "concat".toList, "-safe".toList, "0".toList, "-i".toList, concatList,
   "-c:v".toList, "libx264".toList, "-preset".toList, "medium".toList,
   "-crf".toList, "23".toList, "-c:a".toList, "aac".toList, "-b:a".toList,
   "128k".toList, outputMp4]

/-- Method `concat_and_remux`: try the remux command; on
`HlsDownloadError` either re-raise (no fallback) or run the re-encode
command.  The second component records the subprocess invocations, in
order, as observed through `_runCmd`. -/
def concat_and_remux (runner : List PyStr → ProcResult) (concatList outputMp4 : PyStr)
    (reencodeFallback : Bool) : Except PyStr Unit × List (List PyStr) :=
  match runCmd runner (remuxCmd concatList outputMp4) "concat and remux".toList with
  | .ok _ => (.ok (), [remuxCmd concatList outputMp4])
  | .error e =>
    if !reencodeFallback then (.error e, [remuxCmd concatList outputMp4])
    else
      (runCmd runner (reencodeCmd concatList outputMp4) "concat and re-encode".toList,
       [remuxCmd concatList outputMp4, reencodeCmd concatList outputMp4])

/-- The message of a failed run, the empty string on success. -/
def errStr : Except PyStr Unit → PyStr
  | .error e => e
  | .ok _ => []

/-- Runner exhibiting distinct stderr output of the two ffmpeg
invocations of `concat_and_remux`. -/
def c7Runner : List PyStr → ProcResult := fun cmd =>
  if cmd = remuxCmd "list.txt".toList "out.mp4".toList then
    { returncode := 1, stderr := "PRIMARY_STDERR_ONLY".toList }
  else
    { returncode := 1, stderr := "FALLBACK_STDERR_ONLY".toList }

/-- Runner whose invocations all fail with a fixed stderr. -/
def c7WitnessRunner : List PyStr → ProcResult := fun _ =>
  { returncode := 1, stderr := "boom".toList }

/-- Playlist with `media_sequence = 100` and six encrypted segments
carrying no explicit IV. -/
def c4Playlist : M3u8Playlist :=
  { media_sequence := some 100,
    segments := List.replicate 6
      { uri := "s.ts".toList,
        key := some { method := "AES-128".toList, uri := some "k.bin".toList, iv := none } },
    playlists := [] }

/-- A media item used by the retrieval-loop scenarios. -/
def c2MediaA : PinterestMedia := { src := "A".toList, alt := none }

/-- Response stream whose gap-filling answer repeats an already seen
item: the first batch yields one new item, the supplementary request
returns that same item again. -/
def c2Stream : List ApiResponse :=
  [{ parsed := some [c2MediaA], bookmarks := ["b1".toList] },
   { parsed := some [c2MediaA], bookmarks := [] }]

/-- A gap-filling response repeating an already accumulated item. -/
def c3Resp : ApiResponse := { parsed := some [c2MediaA], bookmarks := [] }

/-- Bookmark state holding one non-terminal token. -/
def c3Bm : BookmarkManager := { bookmarks := ["b1".toList], last := 3 }

/-- Four download items with pairwise distinct identifiers. -/
def c6Items : List DlItem :=
  [{ ident := "a".toList }, { ident := "b".toList },
   { ident := "c".toList }, { ident := "d".toList }]

/-- Worker failing exactly on the items at index 1 and 3 of `c6Items`. -/
def c6Worker : DlItem → WorkerOutcome Nat := fun it =>
  if it.ident = "b".toList || it.ident = "d".toList then
    WorkerOutcome.raised "worker failed".toList
  else
    WorkerOutcome.done (some 0)

/-- A completion order different from the submission order. -/
def c6Order : List (Fin c6Items.length) :=
  [⟨2, by decide⟩, ⟨0, by decide⟩, ⟨3, by decide⟩, ⟨1, by decide⟩]

/-- Four download items where the failing ones (index 1 and 3 under
`c6Worker`) share one identifier string. -/
def c6BadItems : List DlItem :=
  [{ ident := "a".toList }, { ident := "b".toList },
   { ident := "c".toList }, { ident := "b".toList }]

/-- Completion order for the four items of `c6BadItems`. -/
def c6BadOrder : List (Fin c6BadItems.length) :=
  [⟨0, by decide⟩, ⟨1, by decide⟩, ⟨2, by decide⟩, ⟨3, by decide⟩]

/-- Two download items sharing one identifier string. -/
def c10Items : List DlItem :=
  [{ ident := "x".toList }, { ident := "x".toList }]

/-- Worker failing on every item. -/
def c10Worker : DlItem → WorkerOutcome Nat := fun _ =>
  WorkerOutcome.raised "boom".toList

/-- Completion order for the two items of `c10Items`. -/
def c10Order : List (Fin c10Items.length) := [⟨0, by decide⟩, ⟨1, by decide⟩]

/-! ## Theorems -/

theorem BookmarkManager.runOps_bookmarks (m : BookmarkManager) (ops : List BmOp) :
    (m.runOps ops).bookmarks = m.bookmarks ++ ops.flatMap BmOp.tokens ∧
      (m.runOps ops).last = m.last := by
  induction ops generalizing m with
  | nil => simp [runOps]
  | cons op rest ih =>
    have h := ih (m.applyOp op)
    cases op with
    | addOne b =>
      simpa [runOps, applyOp, add, List.foldl_cons] using h
    | addAll bs =>
      simpa [runOps, applyOp, add_all, List.foldl_cons] using h

theorem BookmarkManager.get_length_le (m : BookmarkManager) (h : 1 ≤ m.last) :
    m.get.length ≤ m.last := by
  unfold BookmarkManager.get
  split
  · omega
  · unfold pySliceFrom
    have hneg : -(m.last : Int) < 0 := by
      have : (0 : Int) < (m.last : Int) := by exact_mod_cast h
      omega
    simp only [if_pos hneg, List.length_drop]
    omega

/-- C8 counterexample: with capacity 1, two `add` operations leave two
tokens in the set, so `get_all` returns more than `K` tokens. -/
theorem c8_counterexample :
    BookmarkManager.init 1 = Except.ok { bookmarks := [], last := 1 } ∧
    (BookmarkManager.runOps { bookmarks := [], last := 1 }
      [BmOp.addOne "a".toList, BmOp.addOne "b".toList]).get_all.length = 2 ∧
    ¬((BookmarkManager.runOps { bookmarks := [], last := 1 }
      [BmOp.addOne "a".toList, BmOp.addOne "b".toList]).get_all.length ≤ 1) := by
  exact ⟨rfl, rfl, by decide⟩

/-- C8 (amended): the internal token list of a `BookmarkManager` is
unbounded — `add`/`add_all` append without trimming and `get_all`
returns every token ever added — and only `get` is capped at `K`
tokens (for `K ≥ 1`). -/
theorem c8_only_get_is_capped (k : Nat) (ops : List BmOp) (h1 : 1 ≤ k) (h4 : k ≤ 4) :
    BookmarkManager.init (k : Int) = Except.ok { bookmarks := [], last := k } ∧
    (BookmarkManager.runOps { bookmarks := [], last := k } ops).get.length ≤ k ∧
    (BookmarkManager.runOps { bookmarks := [], last := k } ops).get_all =
      ops.flatMap BmOp.tokens := by
  have hops := BookmarkManager.runOps_bookmarks { bookmarks := [], last := k } ops
  refine ⟨?_, ?_, ?_⟩
  · unfold BookmarkManager.init
    have hc : ¬((k : Int) < 0 || (k : Int) > 4) = true := by
      simp only [Bool.or_eq_true, decide_eq_true_eq]
      push_neg
      constructor
      · exact_mod_cast Nat.zero_le k
      · exact_mod_cast h4
    rw [if_neg (by simpa using hc)]
    simp
  · have hl : (BookmarkManager.runOps { bookmarks := [], last := k } ops).last = k := hops.2
    have := BookmarkManager.get_length_le
      (BookmarkManager.runOps { bookmarks := [], last := k } ops) (by rw [hl]; exact h1)
    rwa [hl] at this
  · simpa [BookmarkManager.get_all] using hops.1

/-- Witness for C8 (amended) at capacity 2 with three tokens added. -/
theorem c8_only_get_is_capped_witness :
    BookmarkManager.init ((2 : Nat) : Int) = Except.ok { bookmarks := [], last := 2 } ∧
    (BookmarkManager.runOps { bookmarks := [], last := 2 }
      [BmOp.addOne "a".toList, BmOp.addAll ["b".toList, "c".toList]]).get.length ≤ 2 ∧
    (BookmarkManager.runOps { bookmarks := [], last := 2 }
      [BmOp.addOne "a".toList, BmOp.addAll ["b".toList, "c".toList]]).get_all =
      [BmOp.addOne "a".toList, BmOp.addAll ["b".toList, "c".toList]].flatMap BmOp.tokens :=
  c8_only_get_is_capped 2
    [BmOp.addOne "a".toList, BmOp.addAll ["b".toList, "c".toList]]
    (by decide) (by decide)

/-- C9: evaluating `get` at the failing input `K = 0` after one `add`:
the code returns the whole token list (`bookmarks[-0:]` is
`bookmarks[0:]`), not the empty list the claim requires. -/
theorem c9_get_zero_cap_returns_all :
    BookmarkManager.init 0 = Except.ok { bookmarks := [], last := 0 } ∧
    (BookmarkManager.add { bookmarks := [], last := 0 } "a".toList).get = ["a".toList] ∧
    ["a".toList] ≠ ([] : List PyStr) := by
  refine ⟨rfl, by decide, by decide⟩

theorem natToBytesBE_length (k n : Nat) : (natToBytesBE k n).length = k := by
  induction k generalizing n with
  | zero => simp [natToBytesBE]
  | succ k ih => simp [natToBytesBE, ih]

theorem foldl_natToBytesBE (k n acc : Nat) :
    (natToBytesBE k n).foldl (fun a b => a * 256 + b) acc = acc * 256 ^ k + n % 256 ^ k := by
  induction k generalizing n acc with
  | zero => simp [natToBytesBE, Nat.mod_one]
  | succ k ih =>
    rw [natToBytesBE, List.foldl_append, ih]
    simp only [List.foldl_cons, List.foldl_nil]
    have h1 : n % 256 ^ (k + 1) = n % 256 + 256 * (n / 256 % 256 ^ k) := by
      rw [pow_succ, mul_comm (256 ^ k) 256]
      exact Nat.mod_mul
    rw [h1, pow_succ]
    ring

theorem bytesToNat_natToBytesBE (k n : Nat) (h : n < 256 ^ k) :
    bytesToNat (natToBytesBE k n) = n := by
  unfold bytesToNat
  rw [foldl_natToBytesBE]
  simp [Nat.mod_eq_of_lt h]

theorem pyMaxBy_cons (key : α → Nat) (x y : α) (ys : List α) :
    pyMaxBy key x (y :: ys) = pyMaxBy key (if key y > key x then y else x) ys := rfl

theorem pyMaxBy_mem (key : α → Nat) (x : α) (xs : List α) :
    pyMaxBy key x xs ∈ x :: xs := by
  induction xs generalizing x with
  | nil => simp [pyMaxBy]
  | cons y ys ih =>
    rw [pyMaxBy_cons]
    rcases List.mem_cons.1 (ih (if key y > key x then y else x)) with h | h
    · rw [h]
      split <;> simp
    · exact List.mem_cons_of_mem _ (List.mem_cons_of_mem _ h)

theorem pyMaxBy_le (key : α → Nat) (x : α) (xs : List α) :
    ∀ z ∈ x :: xs, key z ≤ key (pyMaxBy key x xs) := by
  induction xs generalizing x with
  | nil =>
    intro z hz
    rw [List.mem_singleton] at hz
    subst hz
    simp [pyMaxBy]
  | cons y ys ih =>
    intro z hz
    rw [pyMaxBy_cons]
    have step : key x ≤ key (if key y > key x then y else x) ∧
        key y ≤ key (if key y > key x then y else x) := by
      split
      · next hgt => exact ⟨Nat.le_of_lt hgt, le_refl _⟩
      · exact ⟨le_refl _, by omega⟩
    rcases List.mem_cons.1 hz with h | h
    · subst h
      exact le_trans step.1 (ih _ _ (List.mem_cons_self _ _))
    · rcases List.mem_cons.1 h with h' | h'
      · subst h'
        exact le_trans step.2 (ih _ _ (List.mem_cons_self _ _))
      · exact ih _ z (List.mem_cons_of_mem _ h')

theorem variantKey_of_invalid (q : VariantEntry) (h : validVariant q = false) :
    variantKey q = 0 := by
  cases q with
  | mk si uri =>
    cases si with
    | none => rfl
    | some s =>
      cases s with
      | mk bw =>
        cases bw with
        | none => rfl
        | some b =>
          simp [validVariant] at h
          simp [variantKey, h]

/-- C4: an encrypted segment with no explicit IV gets the derived IV
`(media_sequence + index).to_bytes(16, "big")`; that encoding is 16
bytes long and denotes `media_sequence + index`; for
`media_sequence = 100` and `index = 5` it is fifteen zero bytes followed
by `0x69`, also as produced by `enumerate_segments`. -/
theorem c4_default_iv_derivation :
    (∀ (urljoin : PyStr → PyStr → PyStr) (baseUri : PyStr) (ms idx : Nat)
        (seg : M3u8Segment) (kuri : PyStr),
        seg.key = some { method := "AES-128".toList, uri := some kuri, iv := none } →
        kuri ≠ [] →
        processSegment urljoin baseUri ms idx seg =
          .ok { index := idx, uri := urljoin baseUri seg.uri,
                method := some "AES-128".toList,
                key_uri := some (urljoin baseUri kuri),
                iv := some (compute_default_iv ms idx), media_sequence := ms }) ∧
    (∀ ms idx : Nat, (compute_default_iv ms idx).length = 16 ∧
        (ms + idx < 256 ^ 16 → bytesToNat (compute_default_iv ms idx) = ms + idx)) ∧
    compute_default_iv 100 5 =
      [0, 0, 0, 0, 0, 0, 0, 0, 0, 0, 0, 0, 0, 0, 0, 0x69] ∧
    ((enumerate_segments (fun b u => b ++ u) c4Playlist "p/".toList).toOption.bind
        (fun l => l.get? 5)).map SegmentInfo.iv =
      some (some (compute_default_iv 100 5)) := by
  refine ⟨?_, ?_, by decide, by decide⟩
  · intro urljoin baseUri ms idx seg kuri hkey hkuri
    simp [processSegment, hkey, hkuri]
  · intro ms idx
    exact ⟨natToBytesBE_length 16 (ms + idx), fun h => bytesToNat_natToBytesBE 16 (ms + idx) h⟩

/-- Witness for C4 at `media_sequence = 100`, `index = 5` on a concrete
segment. -/
theorem c4_default_iv_derivation_witness :
    processSegment (fun b u => b ++ u) "p/".toList 100 5
      { uri := "s.ts".toList,
        key := some { method := "AES-128".toList, uri := some "k.bin".toList, iv := none } } =
      .ok { index := 5, uri := "p/".toList ++ "s.ts".toList,
            method := some "AES-128".toList,
            key_uri := some ("p/".toList ++ "k.bin".toList),
            iv := some (compute_default_iv 100 5), media_sequence := 100 } :=
  c4_default_iv_derivation.1 (fun b u => b ++ u) "p/".toList 100 5
    { uri := "s.ts".toList,
      key := some { method := "AES-128".toList, uri := some "k.bin".toList, iv := none } }
    "k.bin".toList rfl (by decide)

/-- C5: `resolve_variant` fails with the no-variant-available error on a
playlist advertising no sub-playlists; any returned URL belongs to a
valid sub-playlist of maximal reported bandwidth; and with bandwidths
200000, 800000, 500000 the 800000 entry is selected. -/
theorem c5_resolve_variant_selection :
    (∀ (urljoin : PyStr → PyStr → PyStr) (baseUri : PyStr) (pl : M3u8Playlist),
        pl.playlists = [] →
        resolve_variant urljoin pl baseUri =
          .error (.hlsDownload "No variant playlists available to resolve".toList)) ∧
    (∀ (urljoin : PyStr → PyStr → PyStr) (baseUri : PyStr) (pl : M3u8Playlist) (u : PyStr),
        resolve_variant urljoin pl baseUri = .ok u →
        ∃ p, p ∈ pl.playlists ∧ validVariant p = true ∧ u = urljoin baseUri p.uri ∧
          ∀ q ∈ pl.playlists, variantKey q ≤ variantKey p) ∧
    (∀ (urljoin : PyStr → PyStr → PyStr) (baseUri : PyStr),
        resolve_variant urljoin
          { media_sequence := none, segments := [],
            playlists := [{ stream_info := some { bandwidth := some 200000 },
                            uri := "low.m3u8".toList },
                          { stream_info := some { bandwidth := some 800000 },
                            uri := "high.m3u8".toList },
                          { stream_info := some { bandwidth := some 500000 },
                            uri := "mid.m3u8".toList }] } baseUri =
          .ok (urljoin baseUri "high.m3u8".toList)) := by
  refine ⟨?_, ?_, ?_⟩
  · intro urljoin baseUri pl h
    simp [resolve_variant, h]
  · intro urljoin baseUri pl u hok
    unfold resolve_variant at hok
    by_cases hempty : pl.playlists.isEmpty
    · simp [hempty] at hok
    · rw [if_neg hempty] at hok
      cases hfil : pl.playlists.filter validVariant with
      | nil => rw [hfil] at hok; exact absurd hok (by simp)
      | cons p ps =>
        rw [hfil] at hok
        simp only [Except.ok.injEq] at hok
        refine ⟨pyMaxBy variantKey p ps, ?_, ?_, hok.symm, ?_⟩
        · have hmem : pyMaxBy variantKey p ps ∈ p :: ps := pyMaxBy_mem _ _ _
          rw [← hfil] at hmem
          exact (List.mem_filter.1 hmem).1
        · have hmem : pyMaxBy variantKey p ps ∈ p :: ps := pyMaxBy_mem _ _ _
          rw [← hfil] at hmem
          exact (List.mem_filter.1 hmem).2
        · intro q hq
          by_cases hv : validVariant q
          · have : q ∈ p :: ps := by
              rw [← hfil]
              exact List.mem_filter.2 ⟨hq, hv⟩
            exact pyMaxBy_le _ _ _ q this
          · rw [variantKey_of_invalid q (by simpa using hv)]
            exact Nat.zero_le _
  · intro urljoin baseUri
    rfl

/-- Witness for C5 at a concrete empty master playlist. -/
theorem c5_resolve_variant_selection_witness :
    resolve_variant (fun b u => b ++ u)
      { media_sequence := none, segments := [], playlists := [] } "base/".toList =
      .error (.hlsDownload "No variant playlists available to resolve".toList) :=
  c5_resolve_variant_selection.1 (fun b u => b ++ u) "base/".toList
    { media_sequence := none, segments := [], playlists := [] } rfl

theorem remuxCmd_ne_reencodeCmd (cl out : PyStr) : remuxCmd cl out ≠ reencodeCmd cl out := by
  intro h
  have := congrArg List.length h
  simp [remuxCmd, reencodeCmd] at this

/-- C7 counterexample: when both ffmpeg invocations fail, the raised
error carries the fallback invocation's stderr but not the primary
invocation's stderr. -/
theorem c7_counterexample :
    "FALLBACK_STDERR_ONLY".toList <:+:
      errStr (concat_and_remux c7Runner "list.txt".toList "out.mp4".toList true).1 ∧
    ¬("PRIMARY_STDERR_ONLY".toList <:+:
      errStr (concat_and_remux c7Runner "list.txt".toList "out.mp4".toList true).1) := by
  constructor
  · decide
  · decide

/-- C7 (amended): if the primary remux subprocess exits non-zero (with
the fallback enabled), the re-encode subprocess is invoked exactly once,
after the primary, on a command naming the same concat manifest; and if
the fallback also fails, the raised error includes the captured stderr
(last 60 lines) of the fallback invocation — the primary invocation's
stderr is not part of the message. -/
theorem c7_fallback_invocation (runner : List PyStr → ProcResult) (cl out : PyStr)
    (hfail : (runner (remuxCmd cl out)).returncode ≠ 0) :
    (concat_and_remux runner cl out true).2 = [remuxCmd cl out, reencodeCmd cl out] ∧
    (concat_and_remux runner cl out true).2.count (reencodeCmd cl out) = 1 ∧
    cl ∈ reencodeCmd cl out ∧
    ((runner (reencodeCmd cl out)).returncode ≠ 0 →
      (concat_and_remux runner cl out true).1 =
        .error ("ffmpeg ".toList ++ "concat and re-encode".toList ++
          " failed with exit code ".toList ++
          intStr (runner (reencodeCmd cl out)).returncode ++ ".\nCommand: ".toList ++
          pyJoin " ".toList (pySliceTo 5 (reencodeCmd cl out)) ++
          "...\nError output:\n".toList ++
          stderrTail (runner (reencodeCmd cl out)).stderr) ∧
      stderrTail (runner (reencodeCmd cl out)).stderr <:+:
        errStr (concat_and_remux runner cl out true).1) := by
  have hrun : concat_and_remux runner cl out true =
      (runCmd runner (reencodeCmd cl out) "concat and re-encode".toList,
       [remuxCmd cl out, reencodeCmd cl out]) := by
    unfold concat_and_remux
    rw [runCmd]
    rw [if_pos hfail]
    simp
  refine ⟨by rw [hrun], ?_, ?_, ?_⟩
  · rw [hrun]
    simp [List.count_cons, remuxCmd_ne_reencodeCmd cl out]
  · simp [reencodeCmd]
  · intro hfb
    have hres : (concat_and_remux runner cl out true).1 =
        .error ("ffmpeg ".toList ++ "concat and re-encode".toList ++
          " failed with exit code ".toList ++
          intStr (runner (reencodeCmd cl out)).returncode ++ ".\nCommand: ".toList ++
          pyJoin " ".toList (pySliceTo 5 (reencodeCmd cl out)) ++
          "...\nError output:\n".toList ++
          stderrTail (runner (reencodeCmd cl out)).stderr) := by
      rw [hrun]
      unfold runCmd
      rw [if_pos hfb]
    refine ⟨hres, ?_⟩
    rw [hres]
    unfold errStr
    exact (List.suffix_append _ _).isInfix

/-- Witness for C7 (amended) with a runner whose invocations all fail. -/
theorem c7_fallback_invocation_witness :
    (concat_and_remux c7WitnessRunner "l.txt".toList "o.mp4".toList true).2 =
      [remuxCmd "l.txt".toList "o.mp4".toList, reencodeCmd "l.txt".toList "o.mp4".toList] ∧
    (concat_and_remux c7WitnessRunner "l.txt".toList "o.mp4".toList true).2.count
      (reencodeCmd "l.txt".toList "o.mp4".toList) = 1 ∧
    "l.txt".toList ∈ reencodeCmd "l.txt".toList "o.mp4".toList ∧
    ((c7WitnessRunner (reencodeCmd "l.txt".toList "o.mp4".toList)).returncode ≠ 0 →
      (concat_and_remux c7WitnessRunner "l.txt".toList "o.mp4".toList true).1 =
        .error ("ffmpeg ".toList ++ "concat and re-encode".toList ++
          " failed with exit code ".toList ++
          intStr (c7WitnessRunner (reencodeCmd "l.txt".toList "o.mp4".toList)).returncode ++
          ".\nCommand: ".toList ++
          pyJoin " ".toList (pySliceTo 5 (reencodeCmd "l.txt".toList "o.mp4".toList)) ++
          "...\nError output:\n".toList ++
          stderrTail (c7WitnessRunner (reencodeCmd "l.txt".toList "o.mp4".toList)).stderr) ∧
      stderrTail (c7WitnessRunner (reencodeCmd "l.txt".toList "o.mp4".toList)).stderr <:+:
        errStr (concat_and_remux c7WitnessRunner "l.txt".toList "o.mp4".toList true).1) :=
  c7_fallback_invocation c7WitnessRunner "l.txt".toList "o.mp4".toList (by decide)

theorem processAll_no_failfast {β : Type} (items : List DlItem)
    (worker : DlItem → WorkerOutcome β) :
    ∀ (order : List (Fin items.length)) (results : List (Option β))
      (errors : List (PyStr × PyStr)),
    processAll items worker false order results errors =
      .ok (order.foldl (fun res i => match worker (items.get i) with
             | .done v => res.set i v
             | .raised _ => res) results,
           order.foldl (fun es i => match worker (items.get i) with
             | .done _ => es
             | .raised e => dictInsert es (items.get i).ident e) errors) := by
  intro order
  induction order with
  | nil => intro results errors; rfl
  | cons i rest ih =>
    intro results errors
    cases hw : worker (items.get i) with
    | done v =>
      simp only [processAll, hw, List.foldl_cons]
      exact ih _ _
    | raised e =>
      simp only [processAll, hw, List.foldl_cons, Bool.false_eq_true, if_false]
      exact ih _ _

theorem foldl_set_get? {β : Type} (items : List DlItem) (f : DlItem → β) :
    ∀ (order : List (Fin items.length)) (results : List (Option β)) (j : Nat),
    results.length = items.length →
    (order.foldl (fun res (i : Fin items.length) =>
        res.set (i : Nat) (some (f (items.get i)))) results).get? j =
      if ∃ i ∈ order, (i : Nat) = j then (items.get? j).map (fun it => some (f it))
      else results.get? j := by
  intro order
  induction order with
  | nil =>
    intro results j _
    simp
  | cons i rest ih =>
    intro results j hlen
    rw [List.foldl_cons, ih _ j (by simp [hlen])]
    by_cases hrest : ∃ i' ∈ rest, (i' : Nat) = j
    · rw [if_pos hrest, if_pos (by
        obtain ⟨i', hi', hj⟩ := hrest
        exact ⟨i', List.mem_cons_of_mem _ hi', hj⟩)]
    · rw [if_neg hrest]
      by_cases hij : (i : Nat) = j
      · rw [if_pos ⟨i, List.mem_cons_self _ _, hij⟩]
        rw [List.get?_set_of_lt' _ _ (by rw [hlen]; exact i.isLt), if_pos hij]
        subst hij
        simp [List.get?_eq_get i.isLt]
      · rw [if_neg (by
          rintro ⟨i', hi', hj⟩
          rcases List.mem_cons.1 hi' with h | h
          · subst h; exact hij hj
          · exact hrest ⟨i', h, hj⟩)]
        rw [List.get?_set_of_lt' _ _ (by rw [hlen]; exact i.isLt), if_neg hij]

theorem processAll_all_done {β : Type} (items : List DlItem) (f : DlItem → β) :
    ∀ (order : List (Fin items.length)) (results : List (Option β))
      (errors : List (PyStr × PyStr)),
    processAll items (fun it => WorkerOutcome.done (some (f it))) false order results errors =
      .ok (order.foldl (fun res (i : Fin items.length) =>
             res.set (i : Nat) (some (f (items.get i)))) results, errors) := by
  intro order
  induction order with
  | nil => intro results errors; rfl
  | cons i rest ih =>
    intro results errors
    simp only [processAll, List.foldl_cons]
    exact ih _ _

theorem filterMap_id_map_some {β γ : Type} (f : γ → β) (l : List γ) :
    (l.map (fun x => some (f x))).filterMap id = l.map f := by
  induction l with
  | nil => rfl
  | cons x xs ih => simp [ih]

/-- C1 counterexample: a worker that completes without raising but
returns `None` has its slot filtered out of the result, so the returned
list is shorter than the input list. -/
theorem c1_counterexample :
    runCoordinator [{ ident := "x".toList }]
      (fun _ => WorkerOutcome.done (none : Option Nat)) [⟨0, by decide⟩] false =
      .ok [] ∧
    ¬(([] : List Nat).length = [({ ident := "x".toList } : DlItem)].length) := by
  exact ⟨rfl, by decide⟩

/-- C1 (amended): when every worker invocation completes without
raising and returns a non-`None` result, `run` with `failFast = false`
returns, for any completion order, the list whose `i`-th element is the
worker's result for the `i`-th input item. -/
theorem c1_positional_results {β : Type} (items : List DlItem) (f : DlItem → β)
    (order : List (Fin items.length)) (h : order.Perm (List.finRange items.length)) :
    runCoordinator items (fun it => WorkerOutcome.done (some (f it))) order false =
      .ok (items.map f) := by
  unfold runCoordinator
  rw [processAll_all_done]
  have hR : order.foldl (fun res (i : Fin items.length) =>
        res.set (i : Nat) (some (f (items.get i))))
        (List.replicate items.length none) =
      items.map (fun it => some (f it)) := by
    apply List.ext_get?_iff.2
    intro n
    rw [foldl_set_get? items f order _ n (by simp)]
    by_cases hn : n < items.length
    · rw [if_pos ⟨⟨n, hn⟩, h.mem_iff.2 (List.mem_finRange _), rfl⟩, List.get?_map]
    · rw [if_neg (by rintro ⟨i, _, hj⟩; exact hn (hj ▸ i.isLt))]
      rw [List.get?_eq_none.2 (by simpa using Nat.le_of_not_lt hn),
        List.get?_eq_none.2 (by simpa using Nat.le_of_not_lt hn)]
  rw [hR]
  show Except.ok ((items.map (fun it => some (f it))).filterMap id) =
    Except.ok (items.map f)
  rw [filterMap_id_map_some]

/-- Witness for C1 (amended): two items completed in reverse order
still produce results in input order. -/
theorem c1_positional_results_witness :
    runCoordinator [{ ident := "a".toList }, { ident := "b".toList }]
      (fun it => WorkerOutcome.done (some it.ident))
      [⟨1, by decide⟩, ⟨0, by decide⟩] false =
      .ok ([{ ident := "a".toList }, { ident := "b".toList }].map DlItem.ident) :=
  c1_positional_results [{ ident := "a".toList }, { ident := "b".toList }]
    DlItem.ident [⟨1, by decide⟩, ⟨0, by decide⟩] (by decide)

theorem dictInsert_map_fst (es : List (PyStr × PyStr)) (k v : PyStr) :
    (dictInsert es k v).map Prod.fst =
      if k ∈ es.map Prod.fst then es.map Prod.fst else es.map Prod.fst ++ [k] := by
  induction es with
  | nil => simp [dictInsert]
  | cons p rest ih =>
    obtain ⟨k', v'⟩ := p
    by_cases hk : k' = k
    · subst hk
      simp [dictInsert]
    · simp only [dictInsert, if_neg hk, List.map_cons, ih]
      by_cases hmem : k ∈ rest.map Prod.fst
      · rw [if_pos hmem, if_pos (List.mem_cons_of_mem _ hmem)]
      · rw [if_neg hmem, if_neg (by
          rw [List.mem_cons]
          rintro (h | h)
          · exact hk h.symm
          · exact hmem h)]
        simp

theorem dictInsert_length (es : List (PyStr × PyStr)) (k v : PyStr) :
    (dictInsert es k v).length =
      if k ∈ es.map Prod.fst then es.length else es.length + 1 := by
  rw [← List.length_map (dictInsert es k v) Prod.fst, dictInsert_map_fst]
  split <;> simp

theorem dictInsert_fst_nodup (es : List (PyStr × PyStr)) (k v : PyStr)
    (h : (es.map Prod.fst).Nodup) : ((dictInsert es k v).map Prod.fst).Nodup := by
  rw [dictInsert_map_fst]
  split
  · exact h
  · next hmem =>
    exact List.Nodup.append h (List.nodup_singleton k)
      (by simpa [List.disjoint_singleton] using hmem)

theorem dictInsert_fst_toFinset (es : List (PyStr × PyStr)) (k v : PyStr) :
    ((dictInsert es k v).map Prod.fst).toFinset = insert k (es.map Prod.fst).toFinset := by
  rw [dictInsert_map_fst]
  split
  · next hmem => rw [Finset.insert_eq_self.2 (List.mem_toFinset.2 hmem)]
  · simp [Finset.union_comm, Finset.insert_eq]

theorem exists_entry_of_mem_fst (es : List (PyStr × PyStr)) (k : PyStr)
    (h : k ∈ es.map Prod.fst) : ∃ m, (k, m) ∈ es := by
  obtain ⟨p, hp, hfst⟩ := List.mem_map.1 h
  obtain ⟨k0, m0⟩ := p
  cases hfst
  exact ⟨m0, hp⟩

theorem errsFold_fst_toFinset {β : Type} (items : List DlItem)
    (worker : DlItem → WorkerOutcome β) :
    ∀ (order : List (Fin items.length)) (errors : List (PyStr × PyStr)),
    ((order.foldl (fun es i => match worker (items.get i) with
        | .done _ => es
        | .raised e => dictInsert es (items.get i).ident e) errors).map Prod.fst).toFinset =
      (errors.map Prod.fst).toFinset ∪
        ((order.filter (fun i => (worker (items.get i)).isFailure)).map
          (fun i => (items.get i).ident)).toFinset := by
  intro order
  induction order with
  | nil => intro errors; simp
  | cons i rest ih =>
    intro errors
    rw [List.foldl_cons, List.filter_cons]
    cases hw : worker (items.get i) with
    | done v =>
      simpa [WorkerOutcome.isFailure] using ih errors
    | raised e =>
      simpa [WorkerOutcome.isFailure, dictInsert_fst_toFinset, Finset.insert_union,
        Finset.union_insert] using ih (dictInsert errors (items.get i).ident e)

theorem errsFold_fst_nodup {β : Type} (items : List DlItem)
    (worker : DlItem → WorkerOutcome β) :
    ∀ (order : List (Fin items.length)) (errors : List (PyStr × PyStr)),
    (errors.map Prod.fst).Nodup →
    ((order.foldl (fun es i => match worker (items.get i) with
        | .done _ => es
        | .raised e => dictInsert es (items.get i).ident e) errors).map Prod.fst).Nodup := by
  intro order
  induction order with
  | nil => intro errors h; exact h
  | cons i rest ih =>
    intro errors h
    rw [List.foldl_cons]
    cases hw : worker (items.get i) with
    | done v => exact ih errors h
    | raised e => exact ih _ (dictInsert_fst_nodup errors _ e h)

theorem errsFold_length {β : Type} (items : List DlItem)
    (worker : DlItem → WorkerOutcome β) (order : List (Fin items.length)) :
    (order.foldl (fun es i => match worker (items.get i) with
        | .done _ => es
        | .raised e => dictInsert es (items.get i).ident e) []).length =
      ((order.filter (fun i => (worker (items.get i)).isFailure)).map
        (fun i => (items.get i).ident)).toFinset.card := by
  have hnd := errsFold_fst_nodup items worker order [] (by simp)
  have hfs := errsFold_fst_toFinset items worker order []
  rw [← List.length_map _ Prod.fst, ← List.toFinset_card_of_nodup hnd, hfs]
  simp

theorem infix_pyJoin_of_mem (sep x : PyStr) :
    ∀ (ls : List PyStr), x ∈ ls → x <:+: pyJoin sep ls := by
  intro ls
  induction ls with
  | nil => intro h; cases h
  | cons a t ih =>
    intro hx
    rcases List.mem_cons.1 hx with h | h
    · subst h
      cases t with
      | nil => exact List.infix_refl x
      | cons b t2 =>
        show x <:+: x ++ sep ++ pyJoin sep (b :: t2)
        rw [List.append_assoc]
        exact (List.prefix_append x _).isInfix
    · cases t with
      | nil => cases h
      | cons b t2 =>
        show x <:+: a ++ sep ++ pyJoin sep (b :: t2)
        exact (ih h).trans (List.suffix_append _ _).isInfix

theorem infix_key_line (k m : PyStr) :
    k <:+: ("  - ".toList ++ k ++ ": ".toList ++ m) := by
  refine ⟨"  - ".toList, ": ".toList ++ m, ?_⟩
  simp [List.append_assoc]

theorem infix_ident_aggMessage (errors : List (PyStr × PyStr)) (total : Nat) (k : PyStr)
    (h : k ∈ errors.map Prod.fst) : k <:+: aggMessage errors total := by
  obtain ⟨m, hm⟩ := exists_entry_of_mem_fst errors k h
  have hline : ("  - ".toList ++ k ++ ": ".toList ++ m) ∈ errorLines errors :=
    List.mem_map_of_mem _ hm
  have h1 : ("  - ".toList ++ k ++ ": ".toList ++ m) <:+:
      pyJoin "\n".toList (errorLines errors) :=
    infix_pyJoin_of_mem _ _ _ hline
  have h2 : pyJoin "\n".toList (errorLines errors) <:+: aggMessage errors total := by
    unfold aggMessage
    exact (List.suffix_append _ _).isInfix
  exact (infix_key_line k m).trans (h1.trans h2)

theorem infix_count_aggMessage (errors : List (PyStr × PyStr)) (total : Nat) :
    (natStr errors.length ++ " out of ".toList ++ natStr total) <:+:
      aggMessage errors total := by
  unfold aggMessage
  refine ⟨"Failed to download ".toList,
    " items:\n".toList ++ pyJoin "\n".toList (errorLines errors), ?_⟩
  simp [List.append_assoc]

theorem toFinset_card_lt_of_not_nodup {α : Type _} [DecidableEq α] (l : List α)
    (h : ¬l.Nodup) : l.toFinset.card < l.length := by
  rw [List.card_toFinset]
  have hle : l.dedup.length ≤ l.length := l.dedup_sublist.length_le
  rcases lt_or_eq_of_le hle with hlt | heq
  · exact hlt
  · exact absurd (l.dedup_sublist.eq_of_length heq ▸ l.nodup_dedup) h

/-- C6 counterexample: four items where the two failing ones (index 1
and 3) share one identifier string: two items fail, yet the aggregate
message says "1 out of 4", not the claimed "2 out of 4". -/
theorem c6_counterexample :
    ((List.finRange c6BadItems.length).filter
      (fun i => (c6Worker (c6BadItems.get i)).isFailure)).length = 2 ∧
    runCoordinator c6BadItems c6Worker c6BadOrder false =
      .error (.downloadError (aggMessage (runErrors c6BadItems c6Worker c6BadOrder) 4)) ∧
    "1 out of 4".toList <:+: aggMessage (runErrors c6BadItems c6Worker c6BadOrder) 4 ∧
    ¬("2 out of 4".toList <:+: aggMessage (runErrors c6BadItems c6Worker c6BadOrder) 4) := by
  refine ⟨by decide, rfl, by decide, by decide⟩

/-- C6 (amended): with `failFast = false` and pairwise distinct
identifiers among the failing items, the run raises one aggregate
`DownloadError` whose message contains every failed item's identifier
and the count of failures out of the total. -/
theorem c6_aggregate_error {β : Type} (items : List DlItem)
    (worker : DlItem → WorkerOutcome β) (order : List (Fin items.length))
    (hperm : order.Perm (List.finRange items.length))
    (hfail : ∃ i : Fin items.length, (worker (items.get i)).isFailure = true)
    (hdist : ∀ i j : Fin items.length, (worker (items.get i)).isFailure = true →
      (worker (items.get j)).isFailure = true →
      (items.get i).ident = (items.get j).ident → i = j) :
    ∃ msg, runCoordinator items worker order false = .error (.downloadError msg) ∧
      (∀ i : Fin items.length, (worker (items.get i)).isFailure = true →
        (items.get i).ident <:+: msg) ∧
      (natStr ((List.finRange items.length).filter
          (fun i => (worker (items.get i)).isFailure)).length ++
        " out of ".toList ++ natStr items.length) <:+: msg := by
  have hproc := processAll_no_failfast items worker order (List.replicate items.length none) []
  set E := order.foldl (fun es i => match worker (items.get i) with
      | .done _ => es
      | .raised e => dictInsert es (items.get i).ident e) [] with hE
  have hfsE := errsFold_fst_toFinset items worker order []
  have hmemE : ∀ i : Fin items.length, (worker (items.get i)).isFailure = true →
      (items.get i).ident ∈ E.map Prod.fst := by
    intro i hi
    rw [← List.mem_toFinset, hE, hfsE]
    apply Finset.mem_union_right
    rw [List.mem_toFinset]
    exact List.mem_map_of_mem _
      (List.mem_filter.2 ⟨hperm.mem_iff.2 (List.mem_finRange i), hi⟩)
  obtain ⟨i0, hi0⟩ := hfail
  have hEne : E ≠ [] := by
    intro h0
    have := hmemE i0 hi0
    rw [h0] at this
    simp at this
  have hrun : runCoordinator items worker order false =
      .error (.downloadError (aggMessage E items.length)) := by
    unfold runCoordinator
    rw [hproc]
    exact if_neg hEne
  refine ⟨aggMessage E items.length, hrun, ?_, ?_⟩
  · intro i hi
    exact infix_ident_aggMessage E items.length _ (hmemE i hi)
  · have hlen : E.length = ((List.finRange items.length).filter
        (fun i => (worker (items.get i)).isFailure)).length := by
      rw [hE, errsFold_length]
      rw [List.toFinset_eq_of_perm _ _ ((hperm.filter _).map _)]
      have hnodup : (((List.finRange items.length).filter
          (fun i => (worker (items.get i)).isFailure)).map
          (fun i => (items.get i).ident)).Nodup := by
        apply List.Nodup.map_on ?_ (List.Nodup.filter _ (List.nodup_finRange _))
        intro x hx y hy hxy
        exact hdist x y (List.mem_filter.1 hx).2 (List.mem_filter.1 hy).2 hxy
      rw [List.toFinset_card_of_nodup hnodup, List.length_map]
    rw [← hlen]
    exact infix_count_aggMessage E items.length

/-- Witness for C6: four items, the ones at index 1 and 3 failing,
handled in the completion order 2, 0, 3, 1. -/
theorem c6_aggregate_error_witness :
    ∃ msg, runCoordinator c6Items c6Worker c6Order false = .error (.downloadError msg) ∧
      (∀ i : Fin c6Items.length, (c6Worker (c6Items.get i)).isFailure = true →
        (c6Items.get i).ident <:+: msg) ∧
      (natStr ((List.finRange c6Items.length).filter
          (fun i => (c6Worker (c6Items.get i)).isFailure)).length ++
        " out of ".toList ++ natStr c6Items.length) <:+: msg :=
  c6_aggregate_error c6Items c6Worker c6Order (by decide)
    ⟨⟨1, by decide⟩, by decide⟩ (by decide)

/-- C10: failures are keyed by the string form of the item identifier,
so when two or more failed items share one identifier string the error
dict holds one entry per distinct identifier, and the failure count in
the aggregate message is the number of distinct failed identifiers,
strictly less than the number of failed items. -/
theorem c10_duplicate_identifiers {β : Type} (items : List DlItem)
    (worker : DlItem → WorkerOutcome β) (order : List (Fin items.length))
    (hperm : order.Perm (List.finRange items.length))
    (hdup : ∃ i j : Fin items.length, i ≠ j ∧ (worker (items.get i)).isFailure = true ∧
      (worker (items.get j)).isFailure = true ∧
      (items.get i).ident = (items.get j).ident) :
    ((runErrors items worker order).map Prod.fst).Nodup ∧
    ((runErrors items worker order).map Prod.fst).toFinset =
      (((List.finRange items.length).filter
        (fun i => (worker (items.get i)).isFailure)).map
        (fun i => (items.get i).ident)).toFinset ∧
    (runErrors items worker order).length =
      (((List.finRange items.length).filter
        (fun i => (worker (items.get i)).isFailure)).map
        (fun i => (items.get i).ident)).toFinset.card ∧
    (runErrors items worker order).length <
      (((List.finRange items.length).filter
        (fun i => (worker (items.get i)).isFailure)).map
        (fun i => (items.get i).ident)).length ∧
    runCoordinator items worker order false =
      .error (.downloadError (aggMessage (runErrors items worker order) items.length)) := by
  have hproc := processAll_no_failfast items worker order (List.replicate items.length none) []
  have hre : runErrors items worker order = order.foldl (fun es i =>
      match worker (items.get i) with
      | .done _ => es
      | .raised e => dictInsert es (items.get i).ident e) [] := by
    unfold runErrors
    rw [hproc]
  have hnotnodup : ¬(((List.finRange items.length).filter
      (fun i => (worker (items.get i)).isFailure)).map
      (fun i => (items.get i).ident)).Nodup := by
    intro hnod
    obtain ⟨i, j, hij, hi, hj, hident⟩ := hdup
    exact hij (List.inj_on_of_nodup_map hnod
      (List.mem_filter.2 ⟨List.mem_finRange i, hi⟩)
      (List.mem_filter.2 ⟨List.mem_finRange j, hj⟩) hident)
  have hcard : (runErrors items worker order).length =
      (((List.finRange items.length).filter
        (fun i => (worker (items.get i)).isFailure)).map
        (fun i => (items.get i).ident)).toFinset.card := by
    rw [hre, errsFold_length]
    rw [List.toFinset_eq_of_perm _ _ ((hperm.filter _).map _)]
  have hEne : runErrors items worker order ≠ [] := by
    obtain ⟨i, _, _, hi, _, _⟩ := hdup
    intro h0
    have hmem : (items.get i).ident ∈ (runErrors items worker order).map Prod.fst := by
      rw [hre, ← List.mem_toFinset, errsFold_fst_toFinset items worker order []]
      apply Finset.mem_union_right
      rw [List.mem_toFinset]
      exact List.mem_map_of_mem _
        (List.mem_filter.2 ⟨hperm.mem_iff.2 (List.mem_finRange i), hi⟩)
    rw [h0] at hmem
    simp at hmem
  refine ⟨?_, ?_, hcard, ?_, ?_⟩
  · rw [hre]
    exact errsFold_fst_nodup items worker order [] (by simp)
  · rw [hre, errsFold_fst_toFinset items worker order []]
    simp only [List.map_nil, List.toFinset_nil, Finset.empty_union]
    exact List.toFinset_eq_of_perm _ _ ((hperm.filter _).map _)
  · rw [hcard]
    exact toFinset_card_lt_of_not_nodup _ hnotnodup
  · unfold runCoordinator
    rw [hproc, ← hre]
    exact if_neg hEne

/-- Witness for C10: two failing items sharing the identifier string. -/
theorem c10_duplicate_identifiers_witness :
    ((runErrors c10Items c10Worker c10Order).map Prod.fst).Nodup ∧
    ((runErrors c10Items c10Worker c10Order).map Prod.fst).toFinset =
      (((List.finRange c10Items.length).filter
        (fun i => (c10Worker (c10Items.get i)).isFailure)).map
        (fun i => (c10Items.get i).ident)).toFinset ∧
    (runErrors c10Items c10Worker c10Order).length =
      (((List.finRange c10Items.length).filter
        (fun i => (c10Worker (c10Items.get i)).isFailure)).map
        (fun i => (c10Items.get i).ident)).toFinset.card ∧
    (runErrors c10Items c10Worker c10Order).length <
      (((List.finRange c10Items.length).filter
        (fun i => (c10Worker (c10Items.get i)).isFailure)).map
        (fun i => (c10Items.get i).ident)).length ∧
    runCoordinator c10Items c10Worker c10Order false =
      .error (.downloadError
        (aggMessage (runErrors c10Items c10Worker c10Order) c10Items.length)) :=
  c10_duplicate_identifiers c10Items c10Worker c10Order (by decide)
    ⟨⟨0, by decide⟩, ⟨1, by decide⟩, by decide, by decide, by decide, rfl⟩

theorem uniqueAux_all_seen (ys : List PinterestMedia) :
    ∀ (seen : List PyStr), (∀ y ∈ ys, y.src ∈ seen) → uniqueAux seen ys = [] := by
  induction ys with
  | nil => intro seen _; rfl
  | cons y t ih =>
    intro seen h
    rw [uniqueAux, if_pos (h y (List.mem_cons_self _ _))]
    exact ih seen (fun z hz => h z (List.mem_cons_of_mem _ hz))

theorem uniqueAux_append_seen (xs : List PinterestMedia) :
    ∀ (seen : List PyStr) (ys : List PinterestMedia),
    (∀ y ∈ ys, y.src ∈ seen ∨ y.src ∈ xs.map PinterestMedia.src) →
    uniqueAux seen (xs ++ ys) = uniqueAux seen xs := by
  induction xs with
  | nil =>
    intro seen ys h
    rw [List.nil_append]
    exact uniqueAux_all_seen ys seen (fun y hy => by
      rcases h y hy with h1 | h1
      · exact h1
      · simp at h1)
  | cons x xs ih =>
    intro seen ys h
    rw [List.cons_append, uniqueAux, uniqueAux]
    by_cases hx : x.src ∈ seen
    · rw [if_pos hx, if_pos hx]
      exact ih seen ys (fun y hy => by
        rcases h y hy with h1 | h1
        · exact Or.inl h1
        · rw [List.map_cons, List.mem_cons] at h1
          rcases h1 with h2 | h2
          · exact Or.inl (h2 ▸ hx)
          · exact Or.inr h2)
    · rw [if_neg hx, if_neg hx]
      congr 1
      exact ih (x.src :: seen) ys (fun y hy => by
        rcases h y hy with h1 | h1
        · exact Or.inl (List.mem_cons_of_mem _ h1)
        · rw [List.map_cons, List.mem_cons] at h1
          rcases h1 with h2 | h2
          · exact Or.inl (h2 ▸ List.mem_cons_self _ _)
          · exact Or.inr h2)

/-- C3 counterexample: a supplementary (gap-filling) batch whose only
item is already accumulated still decrements the remaining counter. -/
theorem c3_counterexample :
    c3Resp.parsed = some [c2MediaA] ∧
    c2MediaA.src ∈ [c2MediaA].map PinterestMedia.src ∧
    (gapLoop 2 [c3Resp] 1 1 c3Bm [c2MediaA]).1 < 1 ∧
    (gapLoop 2 [c3Resp] 1 1 c3Bm [c2MediaA]).1 = 0 := by
  refine ⟨rfl, by decide, by decide, by decide⟩

/-- C3 (amended): the main merge step decrements `remaining` only by
the number of genuinely new unique source URLs — on a deduplicated
accumulator, a batch of already seen items leaves it unchanged — but
the supplementary gap-filling step decrements `remaining` by the full
length of the parsed additional batch, already-seen items included. -/
theorem c3_merge_vs_gap_decrement :
    (∀ (images batch : List PinterestMedia) (remains : Int),
       (∀ b ∈ batch, b.src ∈ images.map PinterestMedia.src) →
       unique_images images = images →
       (mergeStep images batch remains).2 = remains) ∧
    (∀ (batchSize : Int) (r : ApiResponse) (rest : List ApiResponse) (d rem : Int)
       (bm : BookmarkManager) (imgs adds : List PinterestMedia),
       d > 0 → rem > 0 → endMark ∉ bm.get → r.parsed = some adds →
       gapLoop batchSize (r :: rest) d rem bm imgs =
         gapLoop batchSize rest (d - (adds.length : Int)) (rem - (adds.length : Int))
           (bm.add_all r.bookmarks) (imgs ++ adds)) := by
  constructor
  · intro images batch remains hseen huniq
    have hmerge : unique_images (images ++ batch) = unique_images images := by
      unfold unique_images
      exact uniqueAux_append_seen images [] batch (fun y hy => Or.inr (hseen y hy))
    unfold mergeStep
    rw [hmerge, huniq]
    simp
  · intro batchSize r rest d rem bm imgs adds hd hrem hmark hp
    rw [gapLoop, if_pos ⟨hd, hrem⟩, if_neg hmark, hp]

/-- Witness for C3 (amended): merging an already seen batch into a
deduplicated accumulator leaves `remaining` at 5. -/
theorem c3_merge_vs_gap_decrement_witness :
    (mergeStep [c2MediaA] [c2MediaA] 5).2 = 5 :=
  c3_merge_vs_gap_decrement.1 [c2MediaA] [c2MediaA] 5 (by decide) (by decide)

theorem gapLoop_invariant (batchSize : Int) :
    ∀ (stream : List ApiResponse) (d rem : Int) (bm : BookmarkManager)
      (imgs : List PinterestMedia),
    (((gapLoop batchSize stream d rem bm imgs).2.2.1.length : Int) +
        (gapLoop batchSize stream d rem bm imgs).1 = (imgs.length : Int) + rem) := by
  intro stream
  induction stream with
  | nil =>
    intro d rem bm imgs
    rw [gapLoop]
    split
    · split
      · simp
      · simp
    · simp
  | cons r rest ih =>
    intro d rem bm imgs
    rw [gapLoop]
    split
    · split
      · simp
      · cases hp : r.parsed with
        | none => simp
        | some adds =>
          have := ih (d - (adds.length : Int)) (rem - (adds.length : Int))
            (bm.add_all r.bookmarks) (imgs ++ adds)
          simp only [List.length_append] at this ⊢
          push_cast at this ⊢
          omega
    · simp

theorem mergeStep_invariant (images batch : List PinterestMedia) (remains : Int) :
    ((mergeStep images batch remains).1.length : Int) +
      (mergeStep images batch remains).2 = (images.length : Int) + remains := by
  unfold mergeStep
  ring

theorem gapLoop_stream_le (batchSize : Int) :
    ∀ (stream : List ApiResponse) (d rem : Int) (bm : BookmarkManager)
      (imgs : List PinterestMedia),
    ((gapLoop batchSize stream d rem bm imgs).2.2.2).length ≤ stream.length := by
  intro stream
  induction stream with
  | nil =>
    intro d rem bm imgs
    rw [gapLoop]
    split
    · split
      · simp
      · simp
    · simp
  | cons r rest ih =>
    intro d rem bm imgs
    rw [gapLoop]
    split
    · split
      · simp
      · cases r.parsed with
        | none => simp
        | some adds =>
          exact le_trans (ih _ _ _ _) (Nat.le_succ _)
    · simp

theorem scrapeLoop_nil (ea : Bool) (images : List PinterestMedia) (remains : Int)
    (bm : BookmarkManager) (h : remains > 0) :
    scrapeLoop ea [] images remains bm = ⟨images, remains, bm, []⟩ := by
  rw [scrapeLoop.eq_def, if_pos h]

theorem scrapeLoop_stop (ea : Bool) (stream : List ApiResponse)
    (images : List PinterestMedia) (remains : Int) (bm : BookmarkManager)
    (h : ¬remains > 0) :
    scrapeLoop ea stream images remains bm = ⟨images, remains, bm, stream⟩ := by
  rw [scrapeLoop.eq_def, if_neg h]

theorem scrapeLoop_cons_marker (ea : Bool) (r : ApiResponse) (rest : List ApiResponse)
    (images : List PinterestMedia) (remains : Int) (bm : BookmarkManager)
    (h : remains > 0) (hmark : endMark ∈ (getImagesStep ea r bm).2.get) :
    scrapeLoop ea (r :: rest) images remains bm =
      ⟨(mergeStep images (getImagesStep ea r bm).1 remains).1,
       (mergeStep images (getImagesStep ea r bm).1 remains).2,
       (getImagesStep ea r bm).2, rest⟩ := by
  rw [scrapeLoop.eq_def, if_pos h]
  simp only [hmark, ite_true]

theorem scrapeLoop_cons_go (ea : Bool) (r : ApiResponse) (rest : List ApiResponse)
    (images : List PinterestMedia) (remains : Int) (bm : BookmarkManager)
    (h : remains > 0) (hmark : endMark ∉ (getImagesStep ea r bm).2.get) :
    scrapeLoop ea (r :: rest) images remains bm =
      scrapeLoop ea
        (gapLoop (min 50 remains) rest
          (min 50 remains -
            min (min 50 remains) ((mergeStep images (getImagesStep ea r bm).1 remains).1.length : Int))
          (mergeStep images (getImagesStep ea r bm).1 remains).2
          (getImagesStep ea r bm).2
          (mergeStep images (getImagesStep ea r bm).1 remains).1).2.2.2
        (gapLoop (min 50 remains) rest
          (min 50 remains -
            min (min 50 remains) ((mergeStep images (getImagesStep ea r bm).1 remains).1.length : Int))
          (mergeStep images (getImagesStep ea r bm).1 remains).2
          (getImagesStep ea r bm).2
          (mergeStep images (getImagesStep ea r bm).1 remains).1).2.2.1
        (gapLoop (min 50 remains) rest
          (min 50 remains -
            min (min 50 remains) ((mergeStep images (getImagesStep ea r bm).1 remains).1.length : Int))
          (mergeStep images (getImagesStep ea r bm).1 remains).2
          (getImagesStep ea r bm).2
          (mergeStep images (getImagesStep ea r bm).1 remains).1).1
        (gapLoop (min 50 remains) rest
          (min 50 remains -
            min (min 50 remains) ((mergeStep images (getImagesStep ea r bm).1 remains).1.length : Int))
          (mergeStep images (getImagesStep ea r bm).1 remains).2
          (getImagesStep ea r bm).2
          (mergeStep images (getImagesStep ea r bm).1 remains).1).2.1 := by
  rw [scrapeLoop.eq_def, if_pos h]
  simp only [hmark, ite_false]

theorem scrapeLoop_invariant (ea : Bool) :
    ∀ (n : Nat) (stream : List ApiResponse) (images : List PinterestMedia)
      (remains : Int) (bm : BookmarkManager), stream.length ≤ n →
    (((scrapeLoop ea stream images remains bm).images.length : Int) +
        (scrapeLoop ea stream images remains bm).remains =
      (images.length : Int) + remains) ∧
    ((scrapeLoop ea stream images remains bm).remains ≤ 0 ∨
      endMark ∈ (scrapeLoop ea stream images remains bm).bm.get ∨
      (scrapeLoop ea stream images remains bm).stream = []) := by
  intro n
  induction n with
  | zero =>
    intro stream images remains bm hlen
    have hstream : stream = [] := List.length_eq_zero.1 (Nat.le_zero.1 hlen)
    subst hstream
    by_cases h : remains > 0
    · rw [scrapeLoop_nil ea images remains bm h]
      exact ⟨rfl, Or.inr (Or.inr rfl)⟩
    · rw [scrapeLoop_stop ea [] images remains bm h]
      exact ⟨rfl, Or.inl (show remains ≤ 0 by omega)⟩
  | succ n ih =>
    intro stream images remains bm hlen
    by_cases h : remains > 0
    · cases stream with
      | nil =>
        rw [scrapeLoop_nil ea images remains bm h]
        exact ⟨rfl, Or.inr (Or.inr rfl)⟩
      | cons r rest =>
        by_cases hmark : endMark ∈ (getImagesStep ea r bm).2.get
        · rw [scrapeLoop_cons_marker ea r rest images remains bm h hmark]
          exact ⟨mergeStep_invariant images (getImagesStep ea r bm).1 remains,
            Or.inr (Or.inl hmark)⟩
        · rw [scrapeLoop_cons_go ea r rest images remains bm h hmark]
          set g := gapLoop (min 50 remains) rest
            (min 50 remains -
              min (min 50 remains)
                ((mergeStep images (getImagesStep ea r bm).1 remains).1.length : Int))
            (mergeStep images (getImagesStep ea r bm).1 remains).2
            (getImagesStep ea r bm).2
            (mergeStep images (getImagesStep ea r bm).1 remains).1 with hg
          have hglen : (g.2.2.2).length ≤ n := by

            have h1 := gapLoop_stream_le (min 50 remains) rest
              (min 50 remains -
                min (min 50 remains)
                  ((mergeStep images (getImagesStep ea r bm).1 remains).1.length : Int))
              (mergeStep images (getImagesStep ea r bm).1 remains).2
              (getImagesStep ea r bm).2
              (mergeStep images (getImagesStep ea r bm).1 remains).1
            rw [← hg] at h1
            simp only [List.length_cons] at hlen
            omega
          have hIH := ih g.2.2.2 g.2.2.1 g.1 g.2.1 hglen
          refine ⟨?_, hIH.2⟩
          have h2 := gapLoop_invariant (min 50 remains) rest
            (min 50 remains -
              min (min 50 remains)
                ((mergeStep images (getImagesStep ea r bm).1 remains).1.length : Int))
            (mergeStep images (getImagesStep ea r bm).1 remains).2
            (getImagesStep ea r bm).2
            (mergeStep images (getImagesStep ea r bm).1 remains).1
          rw [← hg] at h2
          have h3 := mergeStep_invariant images (getImagesStep ea r bm).1 remains
          have h4 := hIH.1
          omega
    · rw [scrapeLoop_stop ea stream images remains bm h]
      exact ⟨rfl, Or.inl (show remains ≤ 0 by omega)⟩

theorem pySliceTo_length_le {α : Type _} (num : Int) (h : 0 ≤ num) (l : List α) :
    (pySliceTo num l).length ≤ num.toNat := by
  unfold pySliceTo
  rw [if_neg (by omega)]
  simp [List.length_take]

theorem pySliceTo_nil {α : Type _} (num : Int) : pySliceTo num ([] : List α) = [] := by
  simp [pySliceTo]

theorem searchGapLoop_stream_le (batchSize : Int) :
    ∀ (stream : List ApiResponse) (d rem : Int) (bm : BookmarkManager)
      (imgs : List PinterestMedia),
    ((searchGapLoop batchSize stream d rem bm imgs).2.2.2.1).length ≤ stream.length := by
  intro stream
  induction stream with
  | nil =>
    intro d rem bm imgs
    rw [searchGapLoop]
    split
    · simp
    · simp
  | cons r rest ih =>
    intro d rem bm imgs
    rw [searchGapLoop]
    split
    · cases r.parsed with
      | none => simp
      | some adds => exact le_trans (ih _ _ _ _) (Nat.le_succ _)
    · simp

theorem searchGapLoop_invariant (batchSize : Int) :
    ∀ (stream : List ApiResponse) (d rem : Int) (bm : BookmarkManager)
      (imgs : List PinterestMedia),
    (searchGapLoop batchSize stream d rem bm imgs).2.2.2.2 = false →
    ((searchGapLoop batchSize stream d rem bm imgs).2.2.1.length : Int) +
      (searchGapLoop batchSize stream d rem bm imgs).1 = (imgs.length : Int) + rem := by
  intro stream
  induction stream with
  | nil =>
    intro d rem bm imgs
    rw [searchGapLoop]
    split
    · intro hab
      simp at hab
    · intro _
      simp
  | cons r rest ih =>
    intro d rem bm imgs
    rw [searchGapLoop]
    split
    · cases r.parsed with
      | none =>
        intro hab
        simp at hab
      | some adds =>
        intro hab
        have := ih (d - (adds.length : Int)) (rem - (adds.length : Int))
          (bm.add_all r.bookmarks) (imgs ++ adds) hab
        simp only [List.length_append] at this ⊢
        push_cast at this ⊢
        omega
    · intro _
      simp

theorem searchLoop_nil (ea : Bool) (images : List PinterestMedia) (remains : Int)
    (bm : BookmarkManager) (h : remains > 0) :
    searchLoop ea [] images remains bm = ⟨images, remains, bm, [], true⟩ := by
  rw [searchLoop.eq_def, if_pos h]

theorem searchLoop_stop (ea : Bool) (stream : List ApiResponse)
    (images : List PinterestMedia) (remains : Int) (bm : BookmarkManager)
    (h : ¬remains > 0) :
    searchLoop ea stream images remains bm = ⟨images, remains, bm, stream, false⟩ := by
  rw [searchLoop.eq_def, if_neg h]

theorem searchLoop_parse_fail (ea : Bool) (r : ApiResponse) (rest : List ApiResponse)
    (images : List PinterestMedia) (remains : Int) (bm : BookmarkManager)
    (h : remains > 0) (hp : search_images ea r bm = none) :
    searchLoop ea (r :: rest) images remains bm = ⟨images, remains, bm, rest, true⟩ := by
  rw [searchLoop.eq_def, if_pos h]
  simp only [hp]

theorem searchLoop_cons_marker (ea : Bool) (r : ApiResponse) (rest : List ApiResponse)
    (images : List PinterestMedia) (remains : Int) (bm : BookmarkManager)
    (step : List PinterestMedia × BookmarkManager)
    (h : remains > 0) (hp : search_images ea r bm = some step)
    (hmark : endMark ∈ step.2.get) :
    searchLoop ea (r :: rest) images remains bm =
      ⟨(mergeStep images step.1 remains).1, (mergeStep images step.1 remains).2,
       step.2, rest, false⟩ := by
  rw [searchLoop.eq_def, if_pos h]
  simp only [hp, hmark, ite_true]

theorem searchLoop_cons_go (ea : Bool) (r : ApiResponse) (rest : List ApiResponse)
    (images : List PinterestMedia) (remains : Int) (bm : BookmarkManager)
    (step : List PinterestMedia × BookmarkManager)
    (h : remains > 0) (hp : search_images ea r bm = some step)
    (hmark : endMark ∉ step.2.get) :
    searchLoop ea (r :: rest) images remains bm =
      (if (searchGapLoop (min 50 remains) rest
            (min 50 remains -
              min (min 50 remains) ((mergeStep images step.1 remains).1.length : Int))
            (mergeStep images step.1 remains).2 step.2
            (mergeStep images step.1 remains).1).2.2.2.2 = true then
        (⟨(searchGapLoop (min 50 remains) rest
            (min 50 remains -
              min (min 50 remains) ((mergeStep images step.1 remains).1.length : Int))
            (mergeStep images step.1 remains).2 step.2
            (mergeStep images step.1 remains).1).2.2.1,
          (mergeStep images step.1 remains).2,
          (searchGapLoop (min 50 remains) rest
            (min 50 remains -
              min (min 50 remains) ((mergeStep images step.1 remains).1.length : Int))
            (mergeStep images step.1 remains).2 step.2
            (mergeStep images step.1 remains).1).2.1,
          (searchGapLoop (min 50 remains) rest
            (min 50 remains -
              min (min 50 remains) ((mergeStep images step.1 remains).1.length : Int))
            (mergeStep images step.1 remains).2 step.2
            (mergeStep images step.1 remains).1).2.2.2.1, true⟩ : SearchState)
      else
        searchLoop ea
          (searchGapLoop (min 50 remains) rest
            (min 50 remains -
              min (min 50 remains) ((mergeStep images step.1 remains).1.length : Int))
            (mergeStep images step.1 remains).2 step.2
            (mergeStep images step.1 remains).1).2.2.2.1
          (searchGapLoop (min 50 remains) rest
            (min 50 remains -
              min (min 50 remains) ((mergeStep images step.1 remains).1.length : Int))
            (mergeStep images step.1 remains).2 step.2
            (mergeStep images step.1 remains).1).2.2.1
          (searchGapLoop (min 50 remains) rest
            (min 50 remains -
              min (min 50 remains) ((mergeStep images step.1 remains).1.length : Int))
            (mergeStep images step.1 remains).2 step.2
            (mergeStep images step.1 remains).1).1
          (searchGapLoop (min 50 remains) rest
            (min 50 remains -
              min (min 50 remains) ((mergeStep images step.1 remains).1.length : Int))
            (mergeStep images step.1 remains).2 step.2
            (mergeStep images step.1 remains).1).2.1) := by
  rw [searchLoop.eq_def, if_pos h]
  simp only [hp, hmark, ite_false]

theorem searchLoop_invariant (ea : Bool) :
    ∀ (n : Nat) (stream : List ApiResponse) (images : List PinterestMedia)
      (remains : Int) (bm : BookmarkManager), stream.length ≤ n →
    ((searchLoop ea stream images remains bm).aborted = false →
      ((searchLoop ea stream images remains bm).images.length : Int) +
        (searchLoop ea stream images remains bm).remains =
      (images.length : Int) + remains) ∧
    ((searchLoop ea stream images remains bm).remains ≤ 0 ∨
      endMark ∈ (searchLoop ea stream images remains bm).bm.get ∨
      (searchLoop ea stream images remains bm).stream = [] ∨
      (searchLoop ea stream images remains bm).aborted = true) := by
  intro n
  induction n with
  | zero =>
    intro stream images remains bm hlen
    have hstream : stream = [] := List.length_eq_zero.1 (Nat.le_zero.1 hlen)
    subst hstream
    by_cases h : remains > 0
    · rw [searchLoop_nil ea images remains bm h]
      exact ⟨fun hab => absurd hab (by simp), Or.inr (Or.inr (Or.inl rfl))⟩
    · rw [searchLoop_stop ea [] images remains bm h]
      exact ⟨fun _ => rfl, Or.inl (show remains ≤ 0 by omega)⟩
  | succ n ih =>
    intro stream images remains bm hlen
    by_cases h : remains > 0
    · cases stream with
      | nil =>
        rw [searchLoop_nil ea images remains bm h]
        exact ⟨fun hab => absurd hab (by simp), Or.inr (Or.inr (Or.inl rfl))⟩
      | cons r rest =>
        cases hp : search_images ea r bm with
        | none =>
          rw [searchLoop_parse_fail ea r rest images remains bm h hp]
          exact ⟨fun hab => absurd hab (by simp), Or.inr (Or.inr (Or.inr rfl))⟩
        | some step =>
          by_cases hmark : endMark ∈ step.2.get
          · rw [searchLoop_cons_marker ea r rest images remains bm step h hp hmark]
            exact ⟨fun _ => mergeStep_invariant images step.1 remains,
              Or.inr (Or.inl hmark)⟩
          · rw [searchLoop_cons_go ea r rest images remains bm step h hp hmark]
            set g := searchGapLoop (min 50 remains) rest
              (min 50 remains -
                min (min 50 remains) ((mergeStep images step.1 remains).1.length : Int))
              (mergeStep images step.1 remains).2 step.2
              (mergeStep images step.1 remains).1 with hg
            by_cases habort : g.2.2.2.2 = true
            · rw [if_pos habort]
              exact ⟨fun hab => absurd hab (by simp), Or.inr (Or.inr (Or.inr rfl))⟩
            · rw [if_neg habort]
              have hfalse : g.2.2.2.2 = false := by simpa using habort
              have hglen : (g.2.2.2.1).length ≤ n := by
                have h1 := searchGapLoop_stream_le (min 50 remains) rest
                  (min 50 remains -
                    min (min 50 remains)
                      ((mergeStep images step.1 remains).1.length : Int))
                  (mergeStep images step.1 remains).2 step.2
                  (mergeStep images step.1 remains).1
                rw [← hg] at h1
                simp only [List.length_cons] at hlen
                omega
              have hIH := ih g.2.2.2.1 g.2.2.1 g.1 g.2.1 hglen
              refine ⟨?_, hIH.2⟩
              intro hab
              have e1 := hIH.1 hab
              have e2 := searchGapLoop_invariant (min 50 remains) rest
                (min 50 remains -
                  min (min 50 remains) ((mergeStep images step.1 remains).1.length : Int))
                (mergeStep images step.1 remains).2 step.2
                (mergeStep images step.1 remains).1
              rw [← hg] at e2
              have e3 := e2 hfalse
              have e4 := mergeStep_invariant images step.1 remains
              omega
    · rw [searchLoop_stop ea stream images remains bm h]
      exact ⟨fun _ => rfl, Or.inl (show remains ≤ 0 by omega)⟩

theorem boardLoop_stop (ea : Bool) (stream : List ApiResponse)
    (images : List PinterestMedia) (remains : Int) (bm : BookmarkManager) (c : Nat)
    (h : ¬remains > 0) :
    boardLoop ea stream images remains bm c = ⟨images, remains, bm, stream, c⟩ := by
  rw [boardLoop.eq_def, if_neg h]

theorem boardLoop_nil_break (ea : Bool) (images : List PinterestMedia) (remains : Int)
    (bm : BookmarkManager) (c : Nat) (h : remains > 0) (hc : c + 1 ≥ 3) :
    boardLoop ea [] images remains bm c = ⟨images, remains, bm, [], c + 1⟩ := by
  rw [boardLoop.eq_def, if_pos h]
  show (if c + 1 ≥ 3 then (⟨images, remains, bm, [], c + 1⟩ : BoardState)
    else boardLoop ea [] images remains bm (c + 1)) = _
  rw [if_pos hc]

theorem boardLoop_nil_retry (ea : Bool) (images : List PinterestMedia) (remains : Int)
    (bm : BookmarkManager) (c : Nat) (h : remains > 0) (hc : ¬(c + 1 ≥ 3)) :
    boardLoop ea [] images remains bm c = boardLoop ea [] images remains bm (c + 1) := by
  rw [boardLoop.eq_def, if_pos h]
  show (if c + 1 ≥ 3 then (⟨images, remains, bm, [], c + 1⟩ : BoardState)
    else boardLoop ea [] images remains bm (c + 1)) = _
  rw [if_neg hc]

theorem boardLoop_cons_marker (ea : Bool) (r : ApiResponse) (rest : List ApiResponse)
    (images : List PinterestMedia) (remains : Int) (bm : BookmarkManager) (c : Nat)
    (h : remains > 0) (hmark : endMark ∈ (getImagesStep ea r bm).2.get) :
    boardLoop ea (r :: rest) images remains bm c =
      ⟨(mergeStep images (getImagesStep ea r bm).1 remains).1,
       (mergeStep images (getImagesStep ea r bm).1 remains).2,
       (getImagesStep ea r bm).2, rest, 0⟩ := by
  rw [boardLoop.eq_def, if_pos h]
  simp only [hmark, ite_true]

theorem boardLoop_cons_go (ea : Bool) (r : ApiResponse) (rest : List ApiResponse)
    (images : List PinterestMedia) (remains : Int) (bm : BookmarkManager) (c : Nat)
    (h : remains > 0) (hmark : endMark ∉ (getImagesStep ea r bm).2.get) :
    boardLoop ea (r :: rest) images remains bm c =
      boardLoop ea
        (gapLoop (min 50 remains) rest
          (min 50 remains -
            min (min 50 remains) ((mergeStep images (getImagesStep ea r bm).1 remains).1.length : Int))
          (mergeStep images (getImagesStep ea r bm).1 remains).2
          (getImagesStep ea r bm).2
          (mergeStep images (getImagesStep ea r bm).1 remains).1).2.2.2
        (gapLoop (min 50 remains) rest
          (min 50 remains -
            min (min 50 remains) ((mergeStep images (getImagesStep ea r bm).1 remains).1.length : Int))
          (mergeStep images (getImagesStep ea r bm).1 remains).2
          (getImagesStep ea r bm).2
          (mergeStep images (getImagesStep ea r bm).1 remains).1).2.2.1
        (gapLoop (min 50 remains) rest
          (min 50 remains -
            min (min 50 remains) ((mergeStep images (getImagesStep ea r bm).1 remains).1.length : Int))
          (mergeStep images (getImagesStep ea r bm).1 remains).2
          (getImagesStep ea r bm).2
          (mergeStep images (getImagesStep ea r bm).1 remains).1).1
        (gapLoop (min 50 remains) rest
          (min 50 remains -
            min (min 50 remains) ((mergeStep images (getImagesStep ea r bm).1 remains).1.length : Int))
          (mergeStep images (getImagesStep ea r bm).1 remains).2
          (getImagesStep ea r bm).2
          (mergeStep images (getImagesStep ea r bm).1 remains).1).2.1 0 := by
  rw [boardLoop.eq_def, if_pos h]
  simp only [hmark, ite_false]

theorem boardLoop_nil_spec (ea : Bool) (images : List PinterestMedia) (remains : Int)
    (bm : BookmarkManager) (h : remains > 0) :
    ∀ (k c : Nat), 3 - c ≤ k →
    (boardLoop ea [] images remains bm c).images = images ∧
    (boardLoop ea [] images remains bm c).remains = remains ∧
    (boardLoop ea [] images remains bm c).bm = bm ∧
    (boardLoop ea [] images remains bm c).stream = [] ∧
    3 ≤ (boardLoop ea [] images remains bm c).consecutiveEmpty := by
  intro k
  induction k with
  | zero =>
    intro c hc
    rw [boardLoop_nil_break ea images remains bm c h (by omega)]
    exact ⟨rfl, rfl, rfl, rfl, show 3 ≤ c + 1 by omega⟩
  | succ k ih =>
    intro c hc
    by_cases h3 : c + 1 ≥ 3
    · rw [boardLoop_nil_break ea images remains bm c h h3]
      exact ⟨rfl, rfl, rfl, rfl, show 3 ≤ c + 1 by omega⟩
    · rw [boardLoop_nil_retry ea images remains bm c h h3]
      exact ih (c + 1) (by omega)

theorem boardLoop_invariant (ea : Bool) :
    ∀ (n : Nat) (stream : List ApiResponse) (images : List PinterestMedia)
      (remains : Int) (bm : BookmarkManager) (c : Nat), stream.length ≤ n →
    (((boardLoop ea stream images remains bm c).images.length : Int) +
        (boardLoop ea stream images remains bm c).remains =
      (images.length : Int) + remains) ∧
    ((boardLoop ea stream images remains bm c).remains ≤ 0 ∨
      endMark ∈ (boardLoop ea stream images remains bm c).bm.get ∨
      ((boardLoop ea stream images remains bm c).stream = [] ∧
        3 ≤ (boardLoop ea stream images remains bm c).consecutiveEmpty)) := by
  intro n
  induction n with
  | zero =>
    intro stream images remains bm c hlen
    have hstream : stream = [] := List.length_eq_zero.1 (Nat.le_zero.1 hlen)
    subst hstream
    by_cases h : remains > 0
    · obtain ⟨h1, h2, h3, h4, h5⟩ :=
        boardLoop_nil_spec ea images remains bm h (3 - c) c (le_refl _)
      exact ⟨by rw [h1, h2], Or.inr (Or.inr ⟨h4, h5⟩)⟩
    · rw [boardLoop_stop ea [] images remains bm c h]
      exact ⟨rfl, Or.inl (show remains ≤ 0 by omega)⟩
  | succ n ih =>
    intro stream images remains bm c hlen
    by_cases h : remains > 0
    · cases stream with
      | nil =>
        obtain ⟨h1, h2, h3, h4, h5⟩ :=
          boardLoop_nil_spec ea images remains bm h (3 - c) c (le_refl _)
        exact ⟨by rw [h1, h2], Or.inr (Or.inr ⟨h4, h5⟩)⟩
      | cons r rest =>
        by_cases hmark : endMark ∈ (getImagesStep ea r bm).2.get
        · rw [boardLoop_cons_marker ea r rest images remains bm c h hmark]
          exact ⟨mergeStep_invariant images (getImagesStep ea r bm).1 remains,
            Or.inr (Or.inl hmark)⟩
        · rw [boardLoop_cons_go ea r rest images remains bm c h hmark]
          set g := gapLoop (min 50 remains) rest
            (min 50 remains -
              min (min 50 remains)
                ((mergeStep images (getImagesStep ea r bm).1 remains).1.length : Int))
            (mergeStep images (getImagesStep ea r bm).1 remains).2
            (getImagesStep ea r bm).2
            (mergeStep images (getImagesStep ea r bm).1 remains).1 with hg
          have hglen : (g.2.2.2).length ≤ n := by
            have h1 := gapLoop_stream_le (min 50 remains) rest
              (min 50 remains -
                min (min 50 remains)
                  ((mergeStep images (getImagesStep ea r bm).1 remains).1.length : Int))
              (mergeStep images (getImagesStep ea r bm).1 remains).2
              (getImagesStep ea r bm).2
              (mergeStep images (getImagesStep ea r bm).1 remains).1
            rw [← hg] at h1
            simp only [List.length_cons] at hlen
            omega
          have hIH := ih g.2.2.2 g.2.2.1 g.1 g.2.1 0 hglen
          refine ⟨?_, hIH.2⟩
          have h2 := gapLoop_invariant (min 50 remains) rest
            (min 50 remains -
              min (min 50 remains)
                ((mergeStep images (getImagesStep ea r bm).1 remains).1.length : Int))
            (mergeStep images (getImagesStep ea r bm).1 remains).2
            (getImagesStep ea r bm).2
            (mergeStep images (getImagesStep ea r bm).1 remains).1
          rw [← hg] at h2
          have h3 := mergeStep_invariant images (getImagesStep ea r bm).1 remains
          have h4 := hIH.1
          omega
    · rw [boardLoop_stop ea stream images remains bm c h]
      exact ⟨rfl, Or.inl (show remains ≤ 0 by omega)⟩

/-- C2 counterexample: with `num = 2` and a gap-filling response that
repeats an already seen item, the pin loop terminates with the
remaining counter at zero although only one unique item was
accumulated and the terminal marker was never observed. -/
theorem c2_counterexample :
    (scrape_pins false 2 c2Stream).remains = 0 ∧
    (scrape_pins false 2 c2Stream).images = [c2MediaA, c2MediaA] ∧
    (unique_images (scrape_pins false 2 c2Stream).images).length = 1 ∧
    endMark ∉ (scrape_pins false 2 c2Stream).bm.get_all := by
  have hstep : scrape_pins false 2 c2Stream =
      ⟨[c2MediaA, c2MediaA], 0, { bookmarks := ["b1".toList], last := 3 }, []⟩ := by
    show scrapeLoop false c2Stream [] 2 { bookmarks := [], last := 3 } = _
    rw [scrapeLoop.eq_def]
    show scrapeLoop false [] [c2MediaA, c2MediaA] 0
      { bookmarks := ["b1".toList], last := 3 } = _
    rw [scrapeLoop.eq_def]
    rfl
  rw [hstep]
  refine ⟨rfl, rfl, by decide, by decide⟩

/-- C2 (amended): for each of the pin, search, and board retrieval
loops, the returned list (`medias[:num]` in `scrape()`, `images[:num]`
in `search()`) has at most `N` items; the pin and board loops maintain
`len(accumulated) + remaining = N` exactly (with `N` clamped to the
board's pin count), counting gap-fill duplicates, and the search loop
maintains it on every run not interrupted by a parse error; and each
loop can stop only because the remaining counter reached zero — which
due to gap-fill duplicates guarantees `N` accumulated items, not `N`
unique items — or because the terminal end-of-content marker was
observed among the last bookmarks, or because the response source was
exhausted or a parse error interrupted the loop (for boards, after 3
consecutive empty retry rounds). -/
theorem c2_scrape_bounds (ensureAlt : Bool) (num : Int) (stream : List ApiResponse)
    (bookmarksCount : Nat) (pinCount : Int) :
    ((scrape ensureAlt num stream).length ≤ num.toNat ∧
     ((scrape_pins ensureAlt num stream).images.length : Int) +
       (scrape_pins ensureAlt num stream).remains = num ∧
     ((scrape_pins ensureAlt num stream).remains ≤ 0 ∨
       endMark ∈ (scrape_pins ensureAlt num stream).bm.get ∨
       (scrape_pins ensureAlt num stream).stream = [])) ∧
    ((searchRun ensureAlt num bookmarksCount stream).length ≤ num.toNat ∧
     ((searchState ensureAlt num bookmarksCount stream).aborted = false →
       ((searchState ensureAlt num bookmarksCount stream).images.length : Int) +
         (searchState ensureAlt num bookmarksCount stream).remains = num) ∧
     ((searchState ensureAlt num bookmarksCount stream).remains ≤ 0 ∨
       endMark ∈ (searchState ensureAlt num bookmarksCount stream).bm.get ∨
       (searchState ensureAlt num bookmarksCount stream).stream = [] ∨
       (searchState ensureAlt num bookmarksCount stream).aborted = true)) ∧
    ((boardRun ensureAlt pinCount num stream).length ≤ num.toNat ∧
     ((boardState ensureAlt pinCount num stream).images.length : Int) +
       (boardState ensureAlt pinCount num stream).remains = min num pinCount ∧
     ((boardState ensureAlt pinCount num stream).remains ≤ 0 ∨
       endMark ∈ (boardState ensureAlt pinCount num stream).bm.get ∨
       ((boardState ensureAlt pinCount num stream).stream = [] ∧
         3 ≤ (boardState ensureAlt pinCount num stream).consecutiveEmpty))) := by
  refine ⟨?_, ?_, ?_⟩
  · have hinv := scrapeLoop_invariant ensureAlt stream.length stream [] num
      { bookmarks := [], last := 3 } (le_refl _)
    refine ⟨?_, ?_, hinv.2⟩
    · unfold scrape
      by_cases h : 0 ≤ num
      · exact pySliceTo_length_le num h _
      · have hpins : scrape_pins ensureAlt num stream =
            ⟨[], num, { bookmarks := [], last := 3 }, stream⟩ :=
          scrapeLoop_stop ensureAlt stream [] num { bookmarks := [], last := 3 } (by omega)
        rw [hpins]
        show (pySliceTo num ([] : List PinterestMedia)).length ≤ num.toNat
        rw [pySliceTo_nil]
        simp
    · have h1 := hinv.1
      unfold scrape_pins
      simp only [List.length_nil, Nat.cast_zero, zero_add] at h1
      exact h1
  · have hinv := searchLoop_invariant ensureAlt stream.length stream [] num
      { bookmarks := [], last := bookmarksCount } (le_refl _)
    refine ⟨?_, ?_, hinv.2⟩
    · unfold searchRun
      by_cases h : 0 ≤ num
      · exact pySliceTo_length_le num h _
      · have hsearch : searchState ensureAlt num bookmarksCount stream =
            ⟨[], num, { bookmarks := [], last := bookmarksCount }, stream, false⟩ :=
          searchLoop_stop ensureAlt stream [] num
            { bookmarks := [], last := bookmarksCount } (by omega)
        rw [hsearch]
        show (pySliceTo num ([] : List PinterestMedia)).length ≤ num.toNat
        rw [pySliceTo_nil]
        simp
    · intro hab
      have h1 := hinv.1 hab
      unfold searchState
      simp only [List.length_nil, Nat.cast_zero, zero_add] at h1
      exact h1
  · have hinv := boardLoop_invariant ensureAlt stream.length stream []
      (min num pinCount) { bookmarks := [], last := 3 } 0 (le_refl _)
    refine ⟨?_, ?_, hinv.2⟩
    · unfold boardRun
      by_cases h : 0 ≤ num
      · exact pySliceTo_length_le num h _
      · have hboard : boardState ensureAlt pinCount num stream =
            ⟨[], min num pinCount, { bookmarks := [], last := 3 }, stream, 0⟩ := by
          unfold boardState
          exact boardLoop_stop ensureAlt stream [] (min num pinCount)
            { bookmarks := [], last := 3 } 0
            (by have := min_le_left num pinCount; omega)
        rw [hboard]
        show (pySliceTo num ([] : List PinterestMedia)).length ≤ num.toNat
        rw [pySliceTo_nil]
        simp
    · have h1 := hinv.1
      unfold boardState
      simp only [List.length_nil, Nat.cast_zero, zero_add] at h1
      exact h1

end PinterestDL
